import Mathlib

/-!
Shallow embedding of the TSP comparison program
(src/distance_calculator.py, src/exhaustive_search.py,
src/nearest_neighbor.py, src/comparador.py).

Modelling conventions:
* Python floats are modelled as `ℚ` in the solver/comparison modules
  (all arithmetic there is +, -, *, /, <) and as `ℝ` in the distance
  module (where `sqrt`, `sin`, `cos`, `atan2` appear).
* `float('inf')` sentinels are modelled as `none : Option ℚ`.
* Python list indexing (including negative-index wrap-around and
  `IndexError` on out-of-range access) is modelled by `pyGet?` and
  `pySet?`; raised exceptions are modelled with `Except String`.
* `print` calls (the `verbose` paths) only write to stdout in the
  regimes exercised below and are omitted from the model.
* Wall-clock fields (`tiempo_ejecucion`, `speedup`) are not modelled.
-/

/-- Python `l[i]` read semantics: non-negative indices in `[0, len)`,
negative indices in `[-len, -1]` wrap to `len + i`, anything else is
an `IndexError` (`none`). -/
def pyGet? {α : Type} (l : List α) (i : ℤ) : Option α :=
  if 0 ≤ i ∧ i < l.length then l[i.toNat]?
  else if -(l.length : ℤ) ≤ i ∧ i < 0 then l[(l.length + i).toNat]?
  else none

/-- Python `l[i] = a` write semantics (same index rules as `pyGet?`). -/
def pySet? {α : Type} (l : List α) (i : ℤ) (a : α) : Option (List α) :=
  if 0 ≤ i ∧ i < l.length then some (l.set i.toNat a)
  else if -(l.length : ℤ) ≤ i ∧ i < 0 then some (l.set (l.length + i).toNat a)
  else none

/-- Python read with the raised `IndexError` made explicit. -/
def pyGetE {α : Type} (l : List α) (i : ℤ) : Except String α :=
  match pyGet? l i with
  | some a => .ok a
  | none => .error "IndexError"

/-- Python write with the raised `IndexError` made explicit. -/
def pySetE {α : Type} (l : List α) (i : ℤ) (a : α) : Except String (List α) :=
  match pySet? l i a with
  | some l2 => .ok l2
  | none => .error "IndexError"

/-- Total read used in specification-side closed forms (default on miss). -/
def pyGetD {α : Type} (l : List α) (i : ℤ) (d : α) : α :=
  (pyGet? l i).getD d

/-- Python `range(a, b)` as a list of integers. -/
def pyRange (a b : ℤ) : List ℤ :=
  (List.range (b - a).toNat).map (fun k : ℕ => a + (k : ℤ))

theorem pyGet?_eq_getElem? {α : Type} (l : List α) (i : ℤ) (h0 : 0 ≤ i) :
    pyGet? l i = l[i.toNat]? := by
  unfold pyGet?
  by_cases h : i < l.length
  · simp [h0, h]
  · have hge : (l.length : ℤ) ≤ i := le_of_not_lt h
    have : l.length ≤ i.toNat := by omega
    simp only [pyGet?, h0, h, and_true, and_false, if_false, true_and]
    rw [if_neg (by omega), List.getElem?_eq_none this]

theorem pyGet?_nonneg_lt {α : Type} (l : List α) (i : ℤ) (h0 : 0 ≤ i)
    (h : i < l.length) : pyGet? l i = l[i.toNat]? := by
  simp [pyGet?, h0, h]

theorem pyGet?_neg {α : Type} (l : List α) (i : ℤ) (h0 : i < 0)
    (h : -(l.length : ℤ) ≤ i) : pyGet? l i = l[(l.length + i).toNat]? := by
  have : ¬ (0 ≤ i ∧ i < l.length) := by omega
  simp [pyGet?, this, h0, h]

theorem pyGet?_isSome_iff {α : Type} (l : List α) (i : ℤ) :
    (pyGet? l i).isSome ↔ (-(l.length : ℤ) ≤ i ∧ i < l.length) := by
  unfold pyGet?
  by_cases h1 : 0 ≤ i ∧ i < l.length
  · have : i.toNat < l.length := by omega
    simp [h1, List.getElem?_eq_getElem this]
    omega
  · by_cases h2 : -(l.length : ℤ) ≤ i ∧ i < 0
    · have : (l.length + i).toNat < l.length := by omega
      simp [h1, h2, List.getElem?_eq_getElem this]
      omega
    · simp [h1, h2]
      omega

theorem pySet?_nonneg_lt {α : Type} (l : List α) (i : ℤ) (a : α) (h0 : 0 ≤ i)
    (h : i < l.length) : pySet? l i a = some (l.set i.toNat a) := by
  simp [pySet?, h0, h]

theorem pySet?_neg {α : Type} (l : List α) (i : ℤ) (a : α) (h0 : i < 0)
    (h : -(l.length : ℤ) ≤ i) :
    pySet? l i a = some (l.set (l.length + i).toNat a) := by
  have : ¬ (0 ≤ i ∧ i < l.length) := by omega
  simp [pySet?, this, h0, h]

theorem pySet?_eq_none_iff {α : Type} (l : List α) (i : ℤ) (a : α) :
    pySet? l i a = none ↔ (i < -(l.length : ℤ) ∨ (l.length : ℤ) ≤ i) := by
  unfold pySet?
  by_cases h1 : 0 ≤ i ∧ i < l.length
  · simp [h1]; omega
  · by_cases h2 : -(l.length : ℤ) ≤ i ∧ i < 0
    · simp [h1, h2]; omega
    · simp [h1, h2]; omega

theorem mem_pyRange {a b x : ℤ} : x ∈ pyRange a b ↔ a ≤ x ∧ x < b := by
  unfold pyRange
  rw [List.mem_map]
  constructor
  · rintro ⟨k, hk, rfl⟩
    rw [List.mem_range] at hk
    omega
  · rintro ⟨h1, h2⟩
    refine ⟨(x - a).toNat, ?_, ?_⟩
    · rw [List.mem_range]; omega
    · omega

theorem length_pyRange (a b : ℤ) : (pyRange a b).length = (b - a).toNat := by
  unfold pyRange
  rw [List.length_map, List.length_range]

theorem pyRange_nodup (a b : ℤ) : (pyRange a b).Nodup := by
  unfold pyRange
  refine List.Nodup.map ?_ (List.nodup_range _)
  intro x y h
  dsimp only at h
  omega

/-! ### Lexicographic permutation enumeration

`itertools.permutations(l)` enumerates, for a duplicate-free input list,
exactly the permutations of `l` in the order "each element first, then
recursively the permutations of the rest".  `permsAux` is that recursion
with an explicit fuel equal to the list length. -/

def permsAux : ℕ → List ℤ → List (List ℤ)
  | 0, _ => [[]]
  | fuel + 1, l => l.flatMap (fun x => (permsAux fuel (l.erase x)).map (fun p => x :: p))

/-- The list of tuples produced by `itertools.permutations(l)`, in order. -/
def permutationsLex (l : List ℤ) : List (List ℤ) :=
  permsAux l.length l

theorem permsAux_length (fuel : ℕ) :
    ∀ l : List ℤ, l.length = fuel → (permsAux fuel l).length = Nat.factorial fuel := by
  induction fuel with
  | zero => intro l _; simp [permsAux, Nat.factorial]
  | succ m ih =>
    intro l hl
    have hne : l ≠ [] := by
      intro h; rw [h] at hl; simp at hl
    simp only [permsAux, List.length_flatMap]
    have hmap : ∀ x ∈ l, ((permsAux m (l.erase x)).map (fun p => x :: p)).length
        = Nat.factorial m := by
      intro x hx
      rw [List.length_map]
      exact ih (l.erase x) (by rw [List.length_erase_of_mem hx, hl]; rfl)
    have hsum : ∀ (L : List ℤ) (c : ℕ), (L.map (fun _ => c)).sum = L.length * c := by
      intro L c
      induction L with
      | nil => simp
      | cons y t iht => simp [iht, Nat.succ_mul, Nat.add_comm]
    calc (l.map (fun x => ((permsAux m (l.erase x)).map (fun p => x :: p)).length)).sum
        = (l.map (fun _ => Nat.factorial m)).sum := by
          apply congrArg
          exact List.map_congr_left hmap
      _ = l.length * Nat.factorial m := hsum l (Nat.factorial m)
      _ = Nat.factorial (m + 1) := by rw [hl, Nat.factorial_succ]

theorem length_permutationsLex (l : List ℤ) :
    (permutationsLex l).length = Nat.factorial l.length :=
  permsAux_length l.length l rfl

theorem mem_permsAux_of_perm (p : List ℤ) :
    ∀ l : List ℤ, l.length = p.length → p.Perm l → p ∈ permsAux p.length l := by
  induction p with
  | nil =>
    intro l _ hp
    have : l = [] := hp.symm.eq_nil
    simp [this, permsAux]
  | cons x q ih =>
    intro l hl hp
    have hx : x ∈ l := hp.mem_iff.mp (by simp)
    have hq : q.Perm (l.erase x) :=
      (List.cons_perm_iff_perm_erase.mp hp).2
    have hlen : (l.erase x).length = q.length := by
      rw [List.length_erase_of_mem hx, hl]; rfl
    have hmem := ih (l.erase x) hlen hq
    simp only [permsAux, List.mem_flatMap]
    exact ⟨x, hx, List.mem_map.mpr ⟨q, hmem, rfl⟩⟩

theorem perm_of_mem_permsAux (fuel : ℕ) :
    ∀ l p : List ℤ, l.length = fuel → p ∈ permsAux fuel l → p.Perm l := by
  induction fuel with
  | zero =>
    intro l p hl hp
    have : l = [] := List.length_eq_zero.mp hl
    subst this
    simp [permsAux] at hp
    simp [hp]
  | succ m ih =>
    intro l p hl hp
    simp only [permsAux, List.mem_flatMap, List.mem_map] at hp
    obtain ⟨x, hx, q, hq, rfl⟩ := hp
    have hlen : (l.erase x).length = m := by
      rw [List.length_erase_of_mem hx, hl]; rfl
    have hqperm := ih (l.erase x) q hlen hq
    exact List.cons_perm_iff_perm_erase.mpr ⟨hx, hqperm⟩

theorem mem_permutationsLex_iff (l p : List ℤ) :
    p ∈ permutationsLex l ↔ p.Perm l := by
  constructor
  · exact perm_of_mem_permsAux l.length l p rfl
  · intro hp
    have hl : l.length = p.length := (hp.length_eq).symm
    have := mem_permsAux_of_perm p l hl hp
    rwa [permutationsLex, hl]

theorem permutationsLex_ne_nil (l : List ℤ) : permutationsLex l ≠ [] := by
  intro h
  have h1 := length_permutationsLex l
  rw [h, List.length_nil] at h1
  exact absurd h1.symm (Nat.factorial_pos l.length).ne'

/-! ### Data model shared by the solvers -/

/-- A city record (`{'nombre': ..., 'coords': (lat, lon)}`).  Coordinates are
rational (every Python float is); distances computed from them live in `ℝ`
in the distance module below. -/
structure Ciudad where
  nombre : String
  coords : ℚ × ℚ
deriving DecidableEq, Repr

instance : Inhabited Ciudad := ⟨⟨"", (0, 0)⟩⟩

/-- A distance matrix as passed around by the program: a list of rows. -/
abbrev Matriz := List (List ℚ)

/-- Matrix entry read through Python indexing, with default `0` on a miss
(used only in specification-side closed forms; the executable model uses
`pyGetE` and propagates `IndexError`). -/
def entrada (matriz : Matriz) (i j : ℤ) : ℚ :=
  pyGetD (pyGetD matriz i []) j 0

/-- `fila < inf` comparison against a `float('inf')`-initialised best
(`none` models infinity). -/
def ltInf (x : ℚ) (acc : Option ℚ) : Bool :=
  match acc with
  | none => true
  | some m => decide (x < m)

/-! ### `exhaustive_search.py` -/

/-- One record of `busqueda_exhaustiva`'s `historial`. -/
structure EntradaHistorial where
  ciclo : List ℤ
  longitud : ℚ
  es_mejor : Bool
  iteracion : ℕ
deriving DecidableEq, Repr

/-- The dict returned by `busqueda_exhaustiva` (wall-clock field omitted). -/
structure ResultadoExhaustivo where
  ciclo_optimo : Option (List ℤ)
  longitud_optima : Option ℚ
  ciclos_evaluados : ℕ
  historial : List EntradaHistorial
deriving DecidableEq, Repr

/-- Loop state of `busqueda_exhaustiva`. -/
structure EstadoExh where
  mejor_ciclo : Option (List ℤ)
  mejor_longitud : Option ℚ
  ciclos_evaluados : ℕ
  historial : List EntradaHistorial
deriving DecidableEq, Repr

/-- `calcular_longitud_ciclo(ciclo, matriz_dist)`: sum of
`matriz_dist[ciclo[i]][ciclo[(i+1) % n]]` over `i in range(n)`, with
Python `IndexError` propagation. -/
def calcular_longitud_ciclo (ciclo : List ℤ) (matriz_dist : Matriz) :
    Except String ℚ :=
  (List.range ciclo.length).foldlM
    (fun (longitud : ℚ) (i : ℕ) => do
      let ciudad_actual ← pyGetE ciclo (i : ℤ)
      let ciudad_siguiente ← pyGetE ciclo (((i + 1) % ciclo.length : ℕ) : ℤ)
      let fila ← pyGetE matriz_dist ciudad_actual
      let d ← pyGetE fila ciudad_siguiente
      .ok (longitud + d))
    0

/-- Total closed form of `calcular_longitud_ciclo` (equal to it whenever no
access misses; see `calcular_longitud_ciclo_ok`). -/
def longitudCiclo (ciclo : List ℤ) (matriz_dist : Matriz) : ℚ :=
  (List.range ciclo.length).foldl
    (fun (longitud : ℚ) (i : ℕ) =>
      longitud + entrada matriz_dist (pyGetD ciclo (i : ℤ) 0)
        (pyGetD ciclo (((i + 1) % ciclo.length : ℕ) : ℤ) 0))
    0

/-- The body of `busqueda_exhaustiva`'s loop after the cycle length has been
computed: update counters, best cycle and the bounded trace. -/
def actualizarExh (st : EstadoExh) (ciclo : List ℤ) (longitud : ℚ) : EstadoExh :=
  let evaluados := st.ciclos_evaluados + 1
  let es_mejor := ltInf longitud st.mejor_longitud
  { mejor_ciclo := if es_mejor then some ciclo else st.mejor_ciclo
    mejor_longitud := if es_mejor then some longitud else st.mejor_longitud
    ciclos_evaluados := evaluados
    historial :=
      if evaluados ≤ 1000 || es_mejor then
        st.historial ++ [⟨ciclo, longitud, es_mejor, evaluados⟩]
      else st.historial }

/-- One iteration of `busqueda_exhaustiva`'s `for perm in permutations(...)`. -/
def pasoExh (matriz_dist : Matriz) (st : EstadoExh) (perm : List ℤ) :
    Except String EstadoExh := do
  let ciclo := 0 :: perm
  let longitud ← calcular_longitud_ciclo ciclo matriz_dist
  .ok (actualizarExh st ciclo longitud)

/-- Pure form of `pasoExh` (equal whenever no access misses). -/
def pasoExhPuro (matriz_dist : Matriz) (st : EstadoExh) (perm : List ℤ) :
    EstadoExh :=
  actualizarExh st (0 :: perm) (longitudCiclo (0 :: perm) matriz_dist)

/-- `busqueda_exhaustiva(ciudades, matriz_dist)`: fix city 0, enumerate the
permutations of `range(1, n)` in `itertools` order, track the strict best
and the "first 1000 + new bests" trace. -/
def busqueda_exhaustiva (ciudades : List Ciudad) (matriz_dist : Matriz) :
    Except String ResultadoExhaustivo := do
  let n := ciudades.length
  let indices := pyRange 1 (n : ℤ)
  let st ← (permutationsLex indices).foldlM (pasoExh matriz_dist)
    ⟨none, none, 0, []⟩
  .ok ⟨st.mejor_ciclo, st.mejor_longitud, st.ciclos_evaluados, st.historial⟩

/-! ### Specification-side closed forms for the exhaustive trace -/

/-- Running strict minimum with a `float('inf')` start. -/
def minOpt (acc : Option ℚ) (x : ℚ) : Option ℚ :=
  match acc with
  | none => some x
  | some m => if x < m then some x else some m

/-- Minimum of a list of lengths, `none` when empty. -/
def minAcc (l : List ℚ) : Option ℚ :=
  l.foldl minOpt none

/-- The lengths of the evaluated cycles, in enumeration order. -/
def longitudes (ciudades : List Ciudad) (matriz_dist : Matriz) : List ℚ :=
  (permutationsLex (pyRange 1 (ciudades.length : ℤ))).map
    (fun p => longitudCiclo (0 :: p) matriz_dist)

/-- The cycle evaluated at (0-based) position `j` is strictly better than
every cycle evaluated before it. -/
def esNuevoMejor (ls : List ℚ) (j : ℕ) : Bool :=
  (ls.take j).all (fun x => decide (ls.getD j 0 < x))

/-! ### Auxiliary lemmas: successful runs of the monadic folds -/

theorem pyGetE_ok {α : Type} (l : List α) (i : ℤ) (d : α)
    (h : -(l.length : ℤ) ≤ i ∧ i < l.length) :
    pyGetE l i = .ok (pyGetD l i d) := by
  have hs : (pyGet? l i).isSome := (pyGet?_isSome_iff l i).mpr h
  obtain ⟨a, ha⟩ := Option.isSome_iff_exists.mp hs
  rw [pyGetE, pyGetD, ha]
  rfl

theorem pyGet?_mem {α : Type} {l : List α} {i : ℤ} {a : α}
    (h : pyGet? l i = some a) : a ∈ l := by
  unfold pyGet? at h
  split at h
  · exact List.getElem?_mem h
  · split at h
    · exact List.getElem?_mem h
    · exact absurd h (by simp)

theorem pyGetD_mem {α : Type} {l : List α} {i : ℤ} {d : α}
    (h : -(l.length : ℤ) ≤ i ∧ i < l.length) : pyGetD l i d ∈ l := by
  have hs : (pyGet? l i).isSome := (pyGet?_isSome_iff l i).mpr h
  obtain ⟨a, ha⟩ := Option.isSome_iff_exists.mp hs
  rw [pyGetD, ha]
  exact pyGet?_mem ha

theorem foldlM_eq_ok {α β : Type} (f : β → α → Except String β) (g : β → α → β)
    (l : List α) (h : ∀ b, ∀ a ∈ l, f b a = .ok (g b a)) :
    ∀ b, l.foldlM f b = .ok (l.foldl g b) := by
  induction l with
  | nil => intro b; rfl
  | cons x t ih =>
    intro b
    have hx := h b x (by simp)
    rw [List.foldlM_cons, hx]
    show (List.foldlM f (g b x) t) = _
    rw [List.foldl_cons]
    exact ih (fun b' a ha => h b' a (by simp [ha])) (g b x)

/-- A square matrix of side `n`, as the solvers require it. -/
def esCuadrada (matriz : Matriz) (n : ℕ) : Prop :=
  matriz.length = n ∧ ∀ fila ∈ matriz, fila.length = n

instance (matriz : Matriz) (n : ℕ) : Decidable (esCuadrada matriz n) := by
  unfold esCuadrada
  infer_instance

/-- When the matrix is square and every cycle entry is a valid Python index,
`calcular_longitud_ciclo` succeeds and agrees with its closed form. -/
theorem calcular_longitud_ciclo_ok (ciclo : List ℤ) (matriz : Matriz) (n : ℕ)
    (hm : esCuadrada matriz n)
    (hc : ∀ x ∈ ciclo, -(n : ℤ) ≤ x ∧ x < n) :
    calcular_longitud_ciclo ciclo matriz = .ok (longitudCiclo ciclo matriz) := by
  unfold calcular_longitud_ciclo longitudCiclo
  apply foldlM_eq_ok
  intro b i hi
  rw [List.mem_range] at hi
  have hmod : (i + 1) % ciclo.length < ciclo.length :=
    Nat.mod_lt _ (by omega)
  have h1 : -(ciclo.length : ℤ) ≤ (i : ℤ) ∧ (i : ℤ) < ciclo.length := by
    constructor <;> omega
  have h2 : -(ciclo.length : ℤ) ≤ (((i + 1) % ciclo.length : ℕ) : ℤ) ∧
      (((i + 1) % ciclo.length : ℕ) : ℤ) < ciclo.length := by
    constructor <;> omega
  have hc1 := hc _ (pyGetD_mem (d := 0) h1)
  have hc2 := hc _ (pyGetD_mem (d := 0) h2)
  have hfa : -(matriz.length : ℤ) ≤ pyGetD ciclo (i : ℤ) 0 ∧
      pyGetD ciclo (i : ℤ) 0 < matriz.length := by
    rw [hm.1]; exact hc1
  have hfila : pyGetD matriz (pyGetD ciclo (i : ℤ) 0) [] ∈ matriz :=
    pyGetD_mem hfa
  have hlenfila := hm.2 _ hfila
  have hfb : -((pyGetD matriz (pyGetD ciclo (i : ℤ) 0) []).length : ℤ) ≤
        pyGetD ciclo (((i + 1) % ciclo.length : ℕ) : ℤ) 0 ∧
      pyGetD ciclo (((i + 1) % ciclo.length : ℕ) : ℤ) 0 <
        (pyGetD matriz (pyGetD ciclo (i : ℤ) 0) []).length := by
    rw [hlenfila]; exact hc2
  simp only [bind, Except.bind, pyGetE_ok ciclo (i : ℤ) 0 h1,
    pyGetE_ok ciclo (((i + 1) % ciclo.length : ℕ) : ℤ) 0 h2,
    pyGetE_ok matriz (pyGetD ciclo (i : ℤ) 0) [] hfa,
    pyGetE_ok (pyGetD matriz (pyGetD ciclo (i : ℤ) 0) []) (pyGetD ciclo (((i + 1) % ciclo.length : ℕ) : ℤ) 0) 0 hfb,
    entrada]

/-- Pure end state of `busqueda_exhaustiva`'s enumeration fold. -/
def estadoFinalExh (ciudades : List Ciudad) (matriz : Matriz) : EstadoExh :=
  (permutationsLex (pyRange 1 (ciudades.length : ℤ))).foldl (pasoExhPuro matriz)
    ⟨none, none, 0, []⟩

theorem pasoExh_eq_ok (ciudades : List Ciudad) (matriz : Matriz)
    (hn : 1 ≤ ciudades.length) (hm : esCuadrada matriz ciudades.length) :
    ∀ st, ∀ p ∈ permutationsLex (pyRange 1 (ciudades.length : ℤ)),
      pasoExh matriz st p = .ok (pasoExhPuro matriz st p) := by
  intro st p hp
  have hperm : p.Perm (pyRange 1 (ciudades.length : ℤ)) :=
    (mem_permutationsLex_iff _ _).mp hp
  have hc : ∀ x ∈ (0 :: p), -(ciudades.length : ℤ) ≤ x ∧ x < ciudades.length := by
    intro x hx
    rcases List.mem_cons.mp hx with h | h
    · subst h; constructor <;> omega
    · have := mem_pyRange.mp (hperm.mem_iff.mp h)
      omega
  simp only [pasoExh, pasoExhPuro]
  rw [calcular_longitud_ciclo_ok (0 :: p) matriz ciudades.length hm hc]
  rfl

theorem busqueda_exhaustiva_eq (ciudades : List Ciudad) (matriz : Matriz)
    (hn : 1 ≤ ciudades.length) (hm : esCuadrada matriz ciudades.length) :
    busqueda_exhaustiva ciudades matriz =
      .ok ⟨(estadoFinalExh ciudades matriz).mejor_ciclo,
           (estadoFinalExh ciudades matriz).mejor_longitud,
           (estadoFinalExh ciudades matriz).ciclos_evaluados,
           (estadoFinalExh ciudades matriz).historial⟩ := by
  have hfold := foldlM_eq_ok (pasoExh matriz) (pasoExhPuro matriz) _
    (pasoExh_eq_ok ciudades matriz hn hm) (⟨none, none, 0, []⟩ : EstadoExh)
  simp only [busqueda_exhaustiva, estadoFinalExh]
  rw [hfold]
  rfl

theorem ltInf_foldl_minOpt (x : ℚ) : ∀ (l : List ℚ) (acc : Option ℚ),
    ltInf x (l.foldl minOpt acc) = (ltInf x acc && l.all (fun y => decide (x < y))) := by
  intro l
  induction l with
  | nil => intro acc; simp
  | cons y t ih =>
    intro acc
    rw [List.foldl_cons, ih, List.all_cons]
    have hstep : ltInf x (minOpt acc y) = (ltInf x acc && decide (x < y)) := by
      cases acc with
      | none => simp [ltInf, minOpt]
      | some m =>
        simp only [ltInf, minOpt]
        by_cases h1 : y < m
        · rw [if_pos h1]
          by_cases hx : x < y
          · simp [hx, lt_trans hx h1]
          · simp [hx]
        · rw [if_neg h1]
          by_cases hx : x < m
          · simp [hx, lt_of_lt_of_le hx (not_lt.mp h1)]
          · simp [hx]
    rw [hstep, Bool.and_assoc]

theorem ltInf_minAcc (x : ℚ) (l : List ℚ) :
    ltInf x (minAcc l) = l.all (fun y => decide (x < y)) := by
  rw [minAcc, ltInf_foldl_minOpt]
  simp [ltInf]

theorem minOpt_eq (acc : Option ℚ) (x : ℚ) :
    minOpt acc x = if ltInf x acc then some x else acc := by
  cases acc with
  | none => simp [minOpt, ltInf]
  | some m =>
    simp only [minOpt, ltInf]
    by_cases h : x < m <;> simp [h]

theorem minAcc_append_singleton (l : List ℚ) (x : ℚ) :
    minAcc (l ++ [x]) = minOpt (minAcc l) x := by
  unfold minAcc
  rw [List.foldl_append]
  rfl

theorem take_succ_getD {α : Type} (l : List α) (m : ℕ) (d : α) (h : m < l.length) :
    l.take (m + 1) = l.take m ++ [l.getD m d] := by
  rw [List.take_succ, List.getElem?_eq_getElem h]
  rw [List.getD_eq_getElem l d h]
  rfl

theorem getD_map_longitud (matriz : Matriz) (P : List (List ℤ)) (m : ℕ)
    (h : m < P.length) :
    (P.map (fun p => longitudCiclo (0 :: p) matriz)).getD m 0
      = longitudCiclo (0 :: P.getD m []) matriz := by
  have hm2 : m < (P.map (fun p => longitudCiclo (0 :: p) matriz)).length := by
    rw [List.length_map]; exact h
  rw [List.getD_eq_getElem _ _ hm2, List.getElem_map, List.getD_eq_getElem _ _ h]

/-- Closed form of the exhaustive fold state after `m` enumeration steps:
its counter, its running best length, and its retained trace. -/
theorem foldExh_inv (matriz : Matriz) (P : List (List ℤ)) :
    ∀ m, m ≤ P.length →
      ((P.take m).foldl (pasoExhPuro matriz) ⟨none, none, 0, []⟩).ciclos_evaluados = m ∧
      ((P.take m).foldl (pasoExhPuro matriz) ⟨none, none, 0, []⟩).mejor_longitud
        = minAcc ((P.map (fun p => longitudCiclo (0 :: p) matriz)).take m) ∧
      ((P.take m).foldl (pasoExhPuro matriz) ⟨none, none, 0, []⟩).historial
        = ((List.range m).filter
            (fun j => decide (j + 1 ≤ 1000)
              || esNuevoMejor (P.map (fun p => longitudCiclo (0 :: p) matriz)) j)).map
            (fun j => ⟨0 :: P.getD j [],
              (P.map (fun p => longitudCiclo (0 :: p) matriz)).getD j 0,
              esNuevoMejor (P.map (fun p => longitudCiclo (0 :: p) matriz)) j, j + 1⟩) := by
  intro m
  induction m with
  | zero => intro _; refine ⟨rfl, rfl, rfl⟩
  | succ m ih =>
    intro hm1
    have hlt : m < P.length := by omega
    obtain ⟨ih1, ih2, ih3⟩ := ih (by omega)
    have hltL : m < (P.map (fun p => longitudCiclo (0 :: p) matriz)).length := by
      rw [List.length_map]; exact hlt
    have htake := take_succ_getD P m [] hlt
    have htakeL := take_succ_getD (P.map (fun p => longitudCiclo (0 :: p) matriz)) m 0 hltL
    rw [htake, List.foldl_append]
    set S := (P.take m).foldl (pasoExhPuro matriz) (⟨none, none, 0, []⟩ : EstadoExh) with hS
    set L := longitudCiclo (0 :: P.getD m []) matriz with hL
    have hgd := getD_map_longitud matriz P m hlt
    have hmejor : ltInf L S.mejor_longitud
        = esNuevoMejor (P.map (fun p => longitudCiclo (0 :: p) matriz)) m := by
      rw [ih2, ltInf_minAcc, esNuevoMejor, hgd]
    refine ⟨?_, ?_, ?_⟩
    · show S.ciclos_evaluados + 1 = m + 1
      rw [ih1]
    · show (if ltInf L S.mejor_longitud then some L else S.mejor_longitud)
        = minAcc ((P.map (fun p => longitudCiclo (0 :: p) matriz)).take (m + 1))
      rw [htakeL, minAcc_append_singleton, minOpt_eq, ih2, hgd]
    · show (if S.ciclos_evaluados + 1 ≤ 1000 || ltInf L S.mejor_longitud then
          S.historial ++ [⟨0 :: P.getD m [], L, ltInf L S.mejor_longitud, S.ciclos_evaluados + 1⟩]
        else S.historial) = _
      rw [List.range_succ, List.filter_append, List.map_append, ← ih3, ih1, hmejor]
      by_cases hcrit : (decide (m + 1 ≤ 1000)
          || esNuevoMejor (P.map (fun p => longitudCiclo (0 :: p) matriz)) m) = true
      · rw [if_pos ?_]
        · rw [List.filter_cons, List.filter_nil, if_pos hcrit, List.map_singleton, hgd]
        · simpa using hcrit
      · rw [if_neg ?_]
        · rw [List.filter_cons, List.filter_nil, if_neg hcrit, List.map_nil, List.append_nil]
        · simpa using hcrit

theorem foldl_minOpt_some_le : ∀ (l : List ℚ) (a : ℚ),
    ∃ v, l.foldl minOpt (some a) = some v ∧ v ≤ a := by
  intro l
  induction l with
  | nil => intro a; exact ⟨a, rfl, le_refl a⟩
  | cons y t ih =>
    intro a
    rw [List.foldl_cons]
    by_cases h : y < a
    · obtain ⟨v, hv, hle⟩ := ih y
      refine ⟨v, ?_, le_trans hle (le_of_lt h)⟩
      rw [show minOpt (some a) y = some y from by simp [minOpt, h]] at *
      exact hv
    · obtain ⟨v, hv, hle⟩ := ih a
      refine ⟨v, ?_, hle⟩
      rw [show minOpt (some a) y = some a from by simp [minOpt, h]] at *
      exact hv

theorem foldl_minOpt_le_of_mem : ∀ (l : List ℚ) (acc : Option ℚ) (x : ℚ),
    x ∈ l → ∃ v, l.foldl minOpt acc = some v ∧ v ≤ x := by
  intro l
  induction l with
  | nil => intro acc x hx; exact absurd hx (by simp)
  | cons y t ih =>
    intro acc x hx
    rw [List.foldl_cons]
    rcases List.mem_cons.mp hx with h | h
    · subst h
      have hacc : ∃ b, minOpt acc x = some b ∧ b ≤ x := by
        cases acc with
        | none => exact ⟨x, rfl, le_refl x⟩
        | some m =>
          by_cases hm : x < m
          · exact ⟨x, by simp [minOpt, hm], le_refl x⟩
          · exact ⟨m, by simp [minOpt, hm], not_lt.mp hm⟩
      obtain ⟨b, hb, hble⟩ := hacc
      rw [hb]
      obtain ⟨v, hv, hvle⟩ := foldl_minOpt_some_le t b
      exact ⟨v, hv, le_trans hvle hble⟩
    · exact ih (minOpt acc y) x h

theorem minAcc_le_of_mem {l : List ℚ} {x : ℚ} (h : x ∈ l) :
    ∃ v, minAcc l = some v ∧ v ≤ x :=
  foldl_minOpt_le_of_mem l none x h

theorem ciclo_en_rango (n : ℕ) (p : List ℤ) (hn : 1 ≤ n)
    (hp : p.Perm (pyRange 1 (n : ℤ))) :
    ∀ x ∈ (0 :: p), -(n : ℤ) ≤ x ∧ x < n := by
  intro x hx
  rcases List.mem_cons.mp hx with h | h
  · subst h; constructor <;> omega
  · have := mem_pyRange.mp (hp.mem_iff.mp h)
    omega

/-- Claim C1: for every city list with `n ≥ 1` and every square `n × n`
distance matrix, the length returned by `busqueda_exhaustiva` is `≤` the
closed-cycle length (as computed by `calcular_longitud_ciclo`) of `0 :: p`
for every permutation `p` of the indices `1..n-1`. -/
theorem exhaustiva_optimalidad_global (ciudades : List Ciudad) (matriz : Matriz)
    (p : List ℤ) (hn : 1 ≤ ciudades.length)
    (hm : esCuadrada matriz ciudades.length)
    (hp : p.Perm (pyRange 1 (ciudades.length : ℤ))) :
    ∃ r L Lp, busqueda_exhaustiva ciudades matriz = .ok r ∧
      r.longitud_optima = some L ∧
      calcular_longitud_ciclo (0 :: p) matriz = .ok Lp ∧ L ≤ Lp := by
  have heq := busqueda_exhaustiva_eq ciudades matriz hn hm
  have hmem : p ∈ permutationsLex (pyRange 1 (ciudades.length : ℤ)) :=
    (mem_permutationsLex_iff _ _).mpr hp
  have hcalc := calcular_longitud_ciclo_ok (0 :: p) matriz ciudades.length hm
    (ciclo_en_rango ciudades.length p hn hp)
  have hinv := foldExh_inv matriz (permutationsLex (pyRange 1 (ciudades.length : ℤ)))
    (permutationsLex (pyRange 1 (ciudades.length : ℤ))).length le_rfl
  rw [List.take_length] at hinv
  obtain ⟨_, h2, _⟩ := hinv
  have htakeall : ((permutationsLex (pyRange 1 (ciudades.length : ℤ))).map
        (fun q => longitudCiclo (0 :: q) matriz)).take
        (permutationsLex (pyRange 1 (ciudades.length : ℤ))).length
      = (permutationsLex (pyRange 1 (ciudades.length : ℤ))).map
        (fun q => longitudCiclo (0 :: q) matriz) := by
    rw [show (permutationsLex (pyRange 1 (ciudades.length : ℤ))).length
        = ((permutationsLex (pyRange 1 (ciudades.length : ℤ))).map
          (fun q => longitudCiclo (0 :: q) matriz)).length
      from (List.length_map _ _).symm, List.take_length]
  rw [htakeall] at h2
  have hx : longitudCiclo (0 :: p) matriz ∈
      (permutationsLex (pyRange 1 (ciudades.length : ℤ))).map
        (fun q => longitudCiclo (0 :: q) matriz) :=
    List.mem_map.mpr ⟨p, hmem, rfl⟩
  obtain ⟨v, hv, hvle⟩ := minAcc_le_of_mem hx
  refine ⟨_, v, longitudCiclo (0 :: p) matriz, heq, ?_, hcalc, hvle⟩
  show (estadoFinalExh ciudades matriz).mejor_longitud = some v
  rw [show (estadoFinalExh ciudades matriz).mejor_longitud
      = minAcc ((permutationsLex (pyRange 1 (ciudades.length : ℤ))).map
        (fun q => longitudCiclo (0 :: q) matriz)) from h2]
  exact hv

/-- Claim C2: for every city list with `n ≥ 1` and matching square matrix,
`busqueda_exhaustiva` reports `ciclos_evaluados` equal to `(n-1)!`
(no reflection deduplication). -/
theorem exhaustiva_cuenta_ciclos (ciudades : List Ciudad) (matriz : Matriz)
    (hn : 1 ≤ ciudades.length) (hm : esCuadrada matriz ciudades.length) :
    ∃ r, busqueda_exhaustiva ciudades matriz = .ok r ∧
      r.ciclos_evaluados = Nat.factorial (ciudades.length - 1) := by
  have heq := busqueda_exhaustiva_eq ciudades matriz hn hm
  have hinv := foldExh_inv matriz (permutationsLex (pyRange 1 (ciudades.length : ℤ)))
    (permutationsLex (pyRange 1 (ciudades.length : ℤ))).length le_rfl
  rw [List.take_length] at hinv
  refine ⟨_, heq, ?_⟩
  show (estadoFinalExh ciudades matriz).ciclos_evaluados = _
  rw [show (estadoFinalExh ciudades matriz).ciclos_evaluados
      = (permutationsLex (pyRange 1 (ciudades.length : ℤ))).length from hinv.1]
  rw [length_permutationsLex, length_pyRange]
  congr 1
  omega

/-- Claim C5: for every input with `n ≥ 1` (and square matrix), the `k`-th
evaluated cycle (1-based, enumeration order) has an entry in the returned
`historial` iff `k ≤ 1000` or that cycle was strictly better than every
cycle evaluated before it; the entries appear in evaluation order carrying
their evaluation index and new-best flag (closed form of the trace). -/
theorem exhaustiva_historial_retencion (ciudades : List Ciudad) (matriz : Matriz)
    (hn : 1 ≤ ciudades.length) (hm : esCuadrada matriz ciudades.length) :
    ∃ r, busqueda_exhaustiva ciudades matriz = .ok r ∧
      r.historial = ((List.range (longitudes ciudades matriz).length).filter
          (fun j => decide (j + 1 ≤ 1000) || esNuevoMejor (longitudes ciudades matriz) j)).map
          (fun j => ⟨0 :: (permutationsLex (pyRange 1 (ciudades.length : ℤ))).getD j [],
            (longitudes ciudades matriz).getD j 0,
            esNuevoMejor (longitudes ciudades matriz) j, j + 1⟩) ∧
      (∀ k : ℕ, (∃ e ∈ r.historial, e.iteracion = k) ↔
        (1 ≤ k ∧ k ≤ (longitudes ciudades matriz).length ∧
          (k ≤ 1000 ∨ esNuevoMejor (longitudes ciudades matriz) (k - 1) = true))) := by
  have heq := busqueda_exhaustiva_eq ciudades matriz hn hm
  have hinv := foldExh_inv matriz (permutationsLex (pyRange 1 (ciudades.length : ℤ)))
    (permutationsLex (pyRange 1 (ciudades.length : ℤ))).length le_rfl
  rw [List.take_length] at hinv
  have hlen : (longitudes ciudades matriz).length
      = (permutationsLex (pyRange 1 (ciudades.length : ℤ))).length := by
    rw [longitudes, List.length_map]
  have hhist : (estadoFinalExh ciudades matriz).historial
      = ((List.range (longitudes ciudades matriz).length).filter
          (fun j => decide (j + 1 ≤ 1000) || esNuevoMejor (longitudes ciudades matriz) j)).map
          (fun j => ⟨0 :: (permutationsLex (pyRange 1 (ciudades.length : ℤ))).getD j [],
            (longitudes ciudades matriz).getD j 0,
            esNuevoMejor (longitudes ciudades matriz) j, j + 1⟩) := by
    rw [hlen]
    exact hinv.2.2
  refine ⟨_, heq, hhist, ?_⟩
  intro k
  show (∃ e ∈ (estadoFinalExh ciudades matriz).historial, e.iteracion = k) ↔ _
  rw [hhist]
  constructor
  · rintro ⟨e, he, hek⟩
    obtain ⟨j, hj, rfl⟩ := List.mem_map.mp he
    have hj2 := List.mem_filter.mp hj
    have hjr := List.mem_range.mp hj2.1
    have hjc := hj2.2
    simp only [Bool.or_eq_true, decide_eq_true_eq] at hjc
    have hk : j + 1 = k := hek
    refine ⟨by omega, by omega, ?_⟩
    rcases hjc with h | h
    · left; omega
    · right
      rw [show k - 1 = j from by omega]
      exact h
  · rintro ⟨hk1, hk2, hkc⟩
    refine ⟨⟨0 :: (permutationsLex (pyRange 1 (ciudades.length : ℤ))).getD (k - 1) [],
      (longitudes ciudades matriz).getD (k - 1) 0,
      esNuevoMejor (longitudes ciudades matriz) (k - 1), (k - 1) + 1⟩, ?_,
      by show k - 1 + 1 = k; omega⟩
    apply List.mem_map.mpr
    refine ⟨k - 1, ?_, rfl⟩
    apply List.mem_filter.mpr
    refine ⟨List.mem_range.mpr (by omega), ?_⟩
    simp only [Bool.or_eq_true, decide_eq_true_eq]
    rcases hkc with h | h
    · left; omega
    · right; exact h

/-- Claim C7 counterexample: calling `busqueda_exhaustiva` on the empty city
list with the empty matrix does not return a trivial result — the single
enumerated cycle `[0]` indexes the empty matrix and the call fails with an
`IndexError`. -/
theorem limite_n0_falla : busqueda_exhaustiva [] [] = .error "IndexError" := by
  rfl

/-- Claim C7 (amended): at `n = 0` the call fails with an `IndexError`;
at `n = 1` with the (zero-diagonal) `1 × 1` matrix it succeeds with the
single trivial cycle `[0]`, length `0.0` and `ciclos_evaluados = 1`. -/
theorem limite_n0_n1 :
    busqueda_exhaustiva [] [] = .error "IndexError" ∧
    ∀ c : Ciudad, busqueda_exhaustiva [c] [[0]] =
      .ok ⟨some [0], some 0, 1, [⟨[0], 0, true, 1⟩]⟩ := by
  refine ⟨rfl, fun c => ?_⟩
  have heq := busqueda_exhaustiva_eq [c] [[0]] (by simp) (by simp [esCuadrada])
  rw [heq]
  have hL : longitudCiclo [0] [[(0 : ℚ)]] = 0 := by
    show (0 : ℚ) + 0 = 0
    exact add_zero 0
  have hfin : estadoFinalExh [c] [[0]] = ⟨some [0], some 0, 1, [⟨[0], 0, true, 1⟩]⟩ := by
    show (permutationsLex (pyRange 1 (([c] : List Ciudad).length : ℤ))).foldl
      (pasoExhPuro [[0]]) ⟨none, none, 0, []⟩ = _
    rw [show pyRange 1 ((([c] : List Ciudad).length : ℕ) : ℤ) = [] from rfl]
    show pasoExhPuro [[0]] ⟨none, none, 0, []⟩ [] = _
    rw [show pasoExhPuro [[0]] ⟨none, none, 0, []⟩ []
        = actualizarExh ⟨none, none, 0, []⟩ [0] (longitudCiclo [0] [[0]]) from rfl, hL]
    rfl
  rw [hfin]

/-- Concrete instantiation of claim C1 on a 2-city instance. -/
theorem exhaustiva_optimalidad_global_testigo :
    ∃ r L Lp, busqueda_exhaustiva [⟨"A", (0, 0)⟩, ⟨"B", (0, 1)⟩] [[0, 1], [1, 0]] = .ok r ∧
      r.longitud_optima = some L ∧
      calcular_longitud_ciclo (0 :: [1]) [[0, 1], [1, 0]] = .ok Lp ∧ L ≤ Lp :=
  exhaustiva_optimalidad_global [⟨"A", (0, 0)⟩, ⟨"B", (0, 1)⟩] [[0, 1], [1, 0]] [1]
    (by decide) (by decide) (by decide)

/-- Concrete instantiation of claim C2 on a 3-city instance. -/
theorem exhaustiva_cuenta_ciclos_testigo :
    ∃ r, busqueda_exhaustiva [⟨"A", (0, 0)⟩, ⟨"B", (0, 1)⟩, ⟨"C", (1, 1)⟩]
        [[0, 1, 2], [1, 0, 1], [2, 1, 0]] = .ok r ∧
      r.ciclos_evaluados = Nat.factorial
        ([(⟨"A", (0, 0)⟩ : Ciudad), ⟨"B", (0, 1)⟩, ⟨"C", (1, 1)⟩].length - 1) :=
  exhaustiva_cuenta_ciclos [⟨"A", (0, 0)⟩, ⟨"B", (0, 1)⟩, ⟨"C", (1, 1)⟩]
    [[0, 1, 2], [1, 0, 1], [2, 1, 0]] (by decide) (by decide)

/-- Concrete instantiation of claim C5 on a 2-city instance. -/
theorem exhaustiva_historial_retencion_testigo :
    ∃ r, busqueda_exhaustiva [⟨"A", (0, 0)⟩, ⟨"B", (0, 1)⟩] [[0, 1], [1, 0]] = .ok r ∧
      r.historial = ((List.range (longitudes [⟨"A", (0, 0)⟩, ⟨"B", (0, 1)⟩]
            [[0, 1], [1, 0]]).length).filter
          (fun j => decide (j + 1 ≤ 1000)
            || esNuevoMejor (longitudes [⟨"A", (0, 0)⟩, ⟨"B", (0, 1)⟩] [[0, 1], [1, 0]]) j)).map
          (fun j => ⟨0 :: (permutationsLex (pyRange 1
              (([(⟨"A", (0, 0)⟩ : Ciudad), ⟨"B", (0, 1)⟩].length : ℕ) : ℤ))).getD j [],
            (longitudes [⟨"A", (0, 0)⟩, ⟨"B", (0, 1)⟩] [[0, 1], [1, 0]]).getD j 0,
            esNuevoMejor (longitudes [⟨"A", (0, 0)⟩, ⟨"B", (0, 1)⟩] [[0, 1], [1, 0]]) j, j + 1⟩) ∧
      (∀ k : ℕ, (∃ e ∈ r.historial, e.iteracion = k) ↔
        (1 ≤ k ∧ k ≤ (longitudes [⟨"A", (0, 0)⟩, ⟨"B", (0, 1)⟩] [[0, 1], [1, 0]]).length ∧
          (k ≤ 1000 ∨ esNuevoMejor (longitudes [⟨"A", (0, 0)⟩, ⟨"B", (0, 1)⟩]
            [[0, 1], [1, 0]]) (k - 1) = true))) :=
  exhaustiva_historial_retencion [⟨"A", (0, 0)⟩, ⟨"B", (0, 1)⟩] [[0, 1], [1, 0]]
    (by decide) (by decide)

/-- Concrete instantiation of claim C7 (amended) at `n = 1`. -/
theorem limite_n0_n1_testigo :
    busqueda_exhaustiva [⟨"A", (0, 0)⟩] [[0]]
      = .ok ⟨some [0], some 0, 1, [⟨[0], 0, true, 1⟩]⟩ :=
  limite_n0_n1.2 ⟨"A", (0, 0)⟩

/-! ### `nearest_neighbor.py` -/

/-- One record of `vecino_mas_cercano`'s `historial`. -/
structure PasoHistorialNN where
  ciclo_parcial : List ℤ
  ciudad_origen : ℤ
  ciudad_destino : ℤ
  distancia : ℚ
  longitud_acumulada : ℚ
  paso : ℕ
deriving DecidableEq, Repr

/-- The dict returned by `vecino_mas_cercano` (wall-clock field omitted). -/
structure ResultadoNN where
  ciclo : List ℤ
  longitud : ℚ
  historial : List PasoHistorialNN
deriving DecidableEq, Repr

/-- Loop state of `vecino_mas_cercano`'s outer tour-construction loop. -/
structure EstadoNN where
  visitadas : List Bool
  ciclo : List ℤ
  longitud_total : ℚ
  historial : List PasoHistorialNN
  ciudad_actual : ℤ
deriving DecidableEq, Repr

/-- Body of the inner scan `for ciudad in range(n)`: skip visited cities,
read the distance from the current row, keep it on strict `<`. -/
def pasoBusca (matriz_dist : Matriz) (visitadas : List Bool) (ciudad_actual : ℤ)
    (acc : Option ℚ × Option ℤ) (ciudad : ℕ) :
    Except String (Option ℚ × Option ℤ) := do
  let v ← pyGetE visitadas (ciudad : ℤ)
  if v then
    .ok acc
  else do
    let fila ← pyGetE matriz_dist ciudad_actual
    let distancia ← pyGetE fila (ciudad : ℤ)
    if ltInf distancia acc.1 then .ok (some distancia, some (ciudad : ℤ))
    else .ok acc

/-- The inner scan `for ciudad in range(n)` selecting the nearest unvisited
city: returns the pair (`mejor_distancia`, `mejor_ciudad`), both starting at
`float('inf')` / `None` (modelled `none`), updated on strict `<`. -/
def buscarCercana (matriz_dist : Matriz) (visitadas : List Bool)
    (ciudad_actual : ℤ) (n : ℕ) : Except String (Option ℚ × Option ℤ) :=
  (List.range n).foldlM (pasoBusca matriz_dist visitadas ciudad_actual)
    (none, none)

/-- One iteration of `vecino_mas_cercano`'s `for paso in range(n - 1)`:
select the nearest unvisited city, append it, mark it visited, accumulate
the edge length and record the trace entry.  A `None` selection would make
Python fail at `visitadas[None]` with a `TypeError`. -/
def pasoNN (matriz_dist : Matriz) (n : ℕ) (st : EstadoNN) (paso : ℕ) :
    Except String EstadoNN := do
  let sel ← buscarCercana matriz_dist st.visitadas st.ciudad_actual n
  match sel with
  | (some mejor_distancia, some mejor_ciudad) => do
    let visitadas ← pySetE st.visitadas mejor_ciudad true
    .ok { visitadas := visitadas
          ciclo := st.ciclo ++ [mejor_ciudad]
          longitud_total := st.longitud_total + mejor_distancia
          historial := st.historial ++
            [⟨st.ciclo ++ [mejor_ciudad], st.ciudad_actual, mejor_ciudad,
              mejor_distancia, st.longitud_total + mejor_distancia, paso + 1⟩]
          ciudad_actual := mejor_ciudad }
  | _ => .error "TypeError"

/-- The part of `vecino_mas_cercano` before the loop: seed the visited
list (possibly through negative-index wrap-around) and the partial cycle. -/
def nnInicial (ciudades : List Ciudad) (ciudad_inicio : ℤ) :
    Except String EstadoNN := do
  let n := ciudades.length
  let visitadas ← pySetE (List.replicate n false) ciudad_inicio true
  .ok ⟨visitadas, [ciudad_inicio], 0, [], ciudad_inicio⟩

/-- State after the seeding plus `k` iterations of the construction loop. -/
def nnTrasPasos (ciudades : List Ciudad) (matriz_dist : Matriz)
    (ciudad_inicio : ℤ) (k : ℕ) : Except String EstadoNN := do
  let st ← nnInicial ciudades ciudad_inicio
  (List.range k).foldlM (pasoNN matriz_dist ciudades.length) st

/-- `vecino_mas_cercano(ciudades, matriz_dist, ciudad_inicio)`: greedy
nearest-neighbour tour construction, then the closing edge back to the
start and its final trace entry. -/
def vecino_mas_cercano (ciudades : List Ciudad) (matriz_dist : Matriz)
    (ciudad_inicio : ℤ) : Except String ResultadoNN := do
  let n := ciudades.length
  let st ← nnTrasPasos ciudades matriz_dist ciudad_inicio (n - 1)
  let fila ← pyGetE matriz_dist st.ciudad_actual
  let distancia_regreso ← pyGetE fila ciudad_inicio
  let longitud_total := st.longitud_total + distancia_regreso
  .ok ⟨st.ciclo, longitud_total,
    st.historial ++ [⟨st.ciclo ++ [ciudad_inicio], st.ciudad_actual,
      ciudad_inicio, distancia_regreso, longitud_total, n⟩]⟩

theorem pyGetD_coe_nat {α : Type} (l : List α) (m : ℕ) (d : α) (h : m < l.length) :
    pyGetD l (m : ℤ) d = l.getD m d := by
  rw [pyGetD, pyGet?_nonneg_lt _ _ (by omega) (by omega), Int.toNat_natCast,
    List.getD_eq_getElem?_getD]

theorem pyGetE_coe_nat {α : Type} (l : List α) (m : ℕ) (d : α) (h : m < l.length) :
    pyGetE l (m : ℤ) = .ok (l.getD m d) := by
  rw [pyGetE_ok l (m : ℤ) d (by constructor <;> omega), pyGetD_coe_nat l m d h]

/-- Behaviour of the scan body at an unvisited city: compare and maybe
replace the champion. -/
theorem pasoBusca_unvis (matriz : Matriz) (n : ℕ) (visitadas : List Bool)
    (cur : ℤ) (m : ℕ) (hm : esCuadrada matriz n) (hv : visitadas.length = n)
    (hcur : -(n : ℤ) ≤ cur ∧ cur < n) (hmn : m < n)
    (hunv : visitadas.getD m false = false) (acc : Option ℚ × Option ℤ) :
    pasoBusca matriz visitadas cur acc m
      = if ltInf (entrada matriz cur (m : ℤ)) acc.1
        then .ok (some (entrada matriz cur (m : ℤ)), some (m : ℤ)) else .ok acc := by
  have hfa : -(matriz.length : ℤ) ≤ cur ∧ cur < matriz.length := by
    rw [hm.1]; exact hcur
  have hfila_len : (pyGetD matriz cur []).length = n := hm.2 _ (pyGetD_mem hfa)
  unfold pasoBusca
  rw [show pyGetE visitadas (m : ℤ) = .ok false from by
    rw [pyGetE_coe_nat visitadas m false (by omega), hunv]]
  simp only [bind, Except.bind, Bool.false_eq_true, if_false]
  simp only [pyGetE_ok matriz cur [] hfa,
    pyGetE_ok (pyGetD matriz cur []) (m : ℤ) 0 (by rw [hfila_len]; constructor <;> omega)]
  rfl

/-- Behaviour of the scan body at a visited city: no change. -/
theorem pasoBusca_vis (matriz : Matriz) (n : ℕ) (visitadas : List Bool)
    (cur : ℤ) (m : ℕ) (hv : visitadas.length = n) (hmn : m < n)
    (hvis : visitadas.getD m false = true) (acc : Option ℚ × Option ℤ) :
    pasoBusca matriz visitadas cur acc m = .ok acc := by
  unfold pasoBusca
  rw [show pyGetE visitadas (m : ℤ) = .ok true from by
    rw [pyGetE_coe_nat visitadas m false (by omega), hvis]]
  rfl

/-- Invariant of the inner scan over the prefix `range m`: either every city
below `m` is visited and the champion pair is still `(none, none)`, or the
champion is the least-index minimiser among the unvisited cities below `m`. -/
theorem buscar_fold (matriz : Matriz) (n : ℕ) (visitadas : List Bool)
    (cur : ℤ) (hm : esCuadrada matriz n) (hv : visitadas.length = n)
    (hcur : -(n : ℤ) ≤ cur ∧ cur < n) :
    ∀ m, m ≤ n →
      ((∀ i : ℕ, i < m → visitadas.getD i false = true) ∧
        (List.range m).foldlM (pasoBusca matriz visitadas cur) (none, none)
          = .ok (none, none)) ∨
      (∃ u : ℕ, u < m ∧ visitadas.getD u false = false ∧
        (List.range m).foldlM (pasoBusca matriz visitadas cur) (none, none)
          = .ok (some (entrada matriz cur (u : ℤ)), some (u : ℤ)) ∧
        ∀ v : ℕ, v < m → visitadas.getD v false = false →
          (entrada matriz cur (u : ℤ) ≤ entrada matriz cur (v : ℤ) ∧
            (v < u → entrada matriz cur (u : ℤ) < entrada matriz cur (v : ℤ)))) := by
  intro m
  induction m with
  | zero =>
    intro _
    left
    exact ⟨fun i hi => absurd hi (by omega), rfl⟩
  | succ m ih =>
    intro hm1
    have hmn : m < n := by omega
    have hsplit : ∀ res : Option ℚ × Option ℤ,
        (List.range m).foldlM (pasoBusca matriz visitadas cur) (none, none) = .ok res →
        (List.range (m + 1)).foldlM (pasoBusca matriz visitadas cur) (none, none)
          = pasoBusca matriz visitadas cur res m := by
      intro res hres
      rw [List.range_succ, List.foldlM_append, hres]
      show pasoBusca matriz visitadas cur res m >>= _ = _
      cases hpb : pasoBusca matriz visitadas cur res m with
      | error e => rfl
      | ok r => rfl
    rcases ih (by omega) with ⟨hall, hfold⟩ | ⟨u, hu, huv, hfold, hmin⟩
    · by_cases hvm : visitadas.getD m false = true
      · left
        refine ⟨?_, ?_⟩
        · intro i hi
          rcases Nat.lt_succ_iff_lt_or_eq.mp hi with h | h
          · exact hall i h
          · subst h; exact hvm
        · rw [hsplit _ hfold, pasoBusca_vis matriz n visitadas cur m hv hmn hvm]
      · right
        have hunv : visitadas.getD m false = false := by
          cases h : visitadas.getD m false
          · rfl
          · exact absurd h hvm
        refine ⟨m, by omega, hunv, ?_, ?_⟩
        · rw [hsplit _ hfold,
            pasoBusca_unvis matriz n visitadas cur m hm hv hcur hmn hunv]
          rfl
        · intro v hv2 hvunv
          rcases Nat.lt_succ_iff_lt_or_eq.mp hv2 with h | h
          · exact absurd (hall v h) (by rw [hvunv]; simp)
          · subst h
            exact ⟨le_refl _, fun hlt => absurd hlt (by omega)⟩
    · by_cases hvm : visitadas.getD m false = true
      · right
        refine ⟨u, by omega, huv, ?_, ?_⟩
        · rw [hsplit _ hfold, pasoBusca_vis matriz n visitadas cur m hv hmn hvm]
        · intro v hv2 hvunv
          rcases Nat.lt_succ_iff_lt_or_eq.mp hv2 with h | h
          · exact hmin v h hvunv
          · subst h
            exact absurd hvm (by rw [hvunv]; simp)
      · have hunv : visitadas.getD m false = false := by
          cases h : visitadas.getD m false
          · rfl
          · exact absurd h hvm
        have hstep := pasoBusca_unvis matriz n visitadas cur m hm hv hcur hmn hunv
          (some (entrada matriz cur (u : ℤ)), some (u : ℤ))
        by_cases hlt : entrada matriz cur (m : ℤ) < entrada matriz cur (u : ℤ)
        · right
          refine ⟨m, by omega, hunv, ?_, ?_⟩
          · rw [hsplit _ hfold, hstep, if_pos (by simp [ltInf, hlt])]
          · intro v hv2 hvunv
            rcases Nat.lt_succ_iff_lt_or_eq.mp hv2 with h | h
            · have hold := hmin v h hvunv
              exact ⟨le_trans (le_of_lt hlt) hold.1,
                fun _ => lt_of_lt_of_le hlt hold.1⟩
            · subst h
              exact ⟨le_refl _, fun hlt2 => absurd hlt2 (by omega)⟩
        · right
          refine ⟨u, by omega, huv, ?_, ?_⟩
          · rw [hsplit _ hfold, hstep, if_neg (by simp [ltInf, hlt])]
          · intro v hv2 hvunv
            rcases Nat.lt_succ_iff_lt_or_eq.mp hv2 with h | h
            · exact hmin v h hvunv
            · subst h
              refine ⟨not_lt.mp hlt, fun hvu => ?_⟩
              exact absurd hvu (by omega)

theorem buscarCercana_spec (matriz : Matriz) (n : ℕ) (visitadas : List Bool)
    (cur : ℤ) (hm : esCuadrada matriz n) (hv : visitadas.length = n)
    (hcur : -(n : ℤ) ≤ cur ∧ cur < n)
    (hex : ∃ i : ℕ, i < n ∧ visitadas.getD i false = false) :
    ∃ u : ℕ, u < n ∧ visitadas.getD u false = false ∧
      buscarCercana matriz visitadas cur n
        = .ok (some (entrada matriz cur (u : ℤ)), some (u : ℤ)) ∧
      ∀ v : ℕ, v < n → visitadas.getD v false = false →
        (entrada matriz cur (u : ℤ) ≤ entrada matriz cur (v : ℤ) ∧
          (v < u → entrada matriz cur (u : ℤ) < entrada matriz cur (v : ℤ))) := by
  obtain ⟨i, hi, hiun⟩ := hex
  rcases buscar_fold matriz n visitadas cur hm hv hcur n le_rfl with
    ⟨hall, _⟩ | ⟨u, hu, h1, h2, h3⟩
  · exact absurd (hall i hi) (by rw [hiun]; simp)
  · exact ⟨u, hu, h1, h2, h3⟩

theorem getLastD_mem_or {α : Type} :
    ∀ (l : List α) (d : α), l.getLastD d = d ∨ l.getLastD d ∈ l
  | [], _ => Or.inl rfl
  | y :: t, d => by
    rw [List.getLastD_cons]
    rcases getLastD_mem_or t y with h | h
    · right; rw [h]; simp
    · right; exact List.mem_cons_of_mem _ h

theorem getD_set_eq {α : Type} (l : List α) (j : ℕ) (a d : α) (hj : j < l.length) :
    (l.set j a).getD j d = a := by
  rw [List.getD_eq_getElem _ _ (by rw [List.length_set]; exact hj), List.getElem_set]
  simp

theorem getD_set_ne {α : Type} (l : List α) (i j : ℕ) (a d : α) (hne : j ≠ i) :
    (l.set j a).getD i d = l.getD i d := by
  by_cases hi : i < l.length
  · rw [List.getD_eq_getElem _ _ (by rw [List.length_set]; exact hi), List.getElem_set,
      if_neg hne, List.getD_eq_getElem _ _ hi]
  · rw [List.getD_eq_default _ _ (by rw [List.length_set]; omega),
      List.getD_eq_default _ _ (by omega)]

theorem getD_replicate_self (n i : ℕ) (b d : Bool) (hi : i < n) :
    (List.replicate n b).getD i d = b := by
  rw [List.getD_eq_getElem _ _ (by rw [List.length_replicate]; exact hi)]
  exact List.getElem_replicate _ _

/-- The loop invariant of `vecino_mas_cercano`.  `p` is the position of the
seeded start city inside the visited list (`s` itself or its wrap-around). -/
def InvNN (n p : ℕ) (s : ℤ) (k : ℕ) (st : EstadoNN) : Prop :=
  st.visitadas.length = n ∧
  st.ciudad_actual = st.ciclo.getLastD 0 ∧
  ∃ t, st.ciclo = s :: t ∧ t.length = k ∧ t.Nodup ∧
    (∀ x ∈ t, 0 ≤ x ∧ x < n ∧ x ≠ (p : ℤ)) ∧
    (∀ i : ℕ, i < n → (st.visitadas.getD i false = true ↔ (i = p ∨ (i : ℤ) ∈ t)))

theorem pasoNN_spec (matriz : Matriz) (n p : ℕ) (s : ℤ) (k : ℕ) (st : EstadoNN)
    (hm : esCuadrada matriz n) (hp : p < n)
    (hsp : s = (p : ℤ) ∨ s = (p : ℤ) - n) (hk : k + 1 < n)
    (hinv : InvNN n p s k st) :
    ∃ u : ℕ, u < n ∧ st.visitadas.getD u false = false ∧
      pasoNN matriz n st k = .ok
        ⟨st.visitadas.set u true, st.ciclo ++ [(u : ℤ)],
          st.longitud_total + entrada matriz st.ciudad_actual (u : ℤ),
          st.historial ++ [⟨st.ciclo ++ [(u : ℤ)], st.ciudad_actual, (u : ℤ),
            entrada matriz st.ciudad_actual (u : ℤ),
            st.longitud_total + entrada matriz st.ciudad_actual (u : ℤ), k + 1⟩],
          (u : ℤ)⟩ ∧
      (∀ v : ℕ, v < n → st.visitadas.getD v false = false →
        (entrada matriz st.ciudad_actual (u : ℤ) ≤ entrada matriz st.ciudad_actual (v : ℤ) ∧
          (v < u → entrada matriz st.ciudad_actual (u : ℤ)
            < entrada matriz st.ciudad_actual (v : ℤ)))) ∧
      InvNN n p s (k + 1)
        ⟨st.visitadas.set u true, st.ciclo ++ [(u : ℤ)],
          st.longitud_total + entrada matriz st.ciudad_actual (u : ℤ),
          st.historial ++ [⟨st.ciclo ++ [(u : ℤ)], st.ciudad_actual, (u : ℤ),
            entrada matriz st.ciudad_actual (u : ℤ),
            st.longitud_total + entrada matriz st.ciudad_actual (u : ℤ), k + 1⟩],
          (u : ℤ)⟩ := by
  obtain ⟨hlen, hcur_eq, t, hciclo, htlen, htnd, htrange, hiff⟩ := hinv
  have hs_range : -(n : ℤ) ≤ s ∧ s < n := by
    rcases hsp with h | h <;> subst h <;> constructor <;> omega
  have hcur : -(n : ℤ) ≤ st.ciudad_actual ∧ st.ciudad_actual < n := by
    rw [hcur_eq, hciclo, List.getLastD_cons]
    rcases getLastD_mem_or t s with h | h
    · rw [h]; exact hs_range
    · have := htrange _ h
      constructor <;> omega
  have hex : ∃ i : ℕ, i < n ∧ st.visitadas.getD i false = false := by
    by_contra hno
    push_neg at hno
    have hsub : Finset.range n ⊆ insert p (t.map Int.toNat).toFinset := by
      intro i hi
      rw [Finset.mem_range] at hi
      have hvis : st.visitadas.getD i false = true := by
        cases h : st.visitadas.getD i false
        · exact absurd h (hno i hi)
        · rfl
      rcases (hiff i hi).mp hvis with h | h
      · simp [h]
      · apply Finset.mem_insert_of_mem
        rw [List.mem_toFinset, List.mem_map]
        exact ⟨(i : ℤ), h, by simp⟩
    have hcard := Finset.card_le_card hsub
    rw [Finset.card_range] at hcard
    have h1 : (insert p (t.map Int.toNat).toFinset).card
        ≤ (t.map Int.toNat).toFinset.card + 1 := Finset.card_insert_le _ _
    have h2 : (t.map Int.toNat).toFinset.card ≤ (t.map Int.toNat).length :=
      List.toFinset_card_le _
    rw [List.length_map, htlen] at h2
    omega
  obtain ⟨u, hu, huunv, hff, hmin⟩ :=
    buscarCercana_spec matriz n st.visitadas st.ciudad_actual hm hlen hcur hex
  have hnot : ¬(u = p ∨ (u : ℤ) ∈ t) := by
    intro h
    have := (hiff u hu).mpr h
    rw [huunv] at this
    exact Bool.false_ne_true this
  have hunp : u ≠ p := fun h => hnot (Or.inl h)
  have hunt : (u : ℤ) ∉ t := fun h => hnot (Or.inr h)
  have hset : pySetE st.visitadas (u : ℤ) true = .ok (st.visitadas.set u true) := by
    rw [pySetE, pySet?_nonneg_lt _ _ _ (by omega) (by omega), Int.toNat_natCast]
  refine ⟨u, hu, huunv, ?_, hmin, ?_, ?_, ?_⟩
  · unfold pasoNN
    simp only [hff, bind, Except.bind, hset]
  · rw [List.length_set]
    exact hlen
  · rw [show (⟨st.visitadas.set u true, st.ciclo ++ [(u : ℤ)],
        st.longitud_total + entrada matriz st.ciudad_actual (u : ℤ),
        st.historial ++ [⟨st.ciclo ++ [(u : ℤ)], st.ciudad_actual, (u : ℤ),
          entrada matriz st.ciudad_actual (u : ℤ),
          st.longitud_total + entrada matriz st.ciudad_actual (u : ℤ), k + 1⟩],
        (u : ℤ)⟩ : EstadoNN).ciclo = st.ciclo ++ [(u : ℤ)] from rfl]
    rw [List.getLastD_concat]
  · refine ⟨t ++ [(u : ℤ)], ?_, ?_, ?_, ?_, ?_⟩
    · show st.ciclo ++ [(u : ℤ)] = s :: (t ++ [(u : ℤ)])
      rw [hciclo]
      rfl
    · rw [List.length_append, htlen]
      rfl
    · rw [List.nodup_append]
      refine ⟨htnd, List.nodup_singleton _, ?_⟩
      intro x hx
      simp only [List.mem_singleton]
      intro hxu
      subst hxu
      exact hunt hx
    · intro x hx
      rcases List.mem_append.mp hx with h | h
      · exact htrange x h
      · rw [List.mem_singleton] at h
        subst h
        refine ⟨by omega, by omega, ?_⟩
        intro hup
        apply hunp
        omega
    · intro i hi
      show (st.visitadas.set u true).getD i false = true ↔ _
      by_cases hiu : i = u
      · subst hiu
        rw [getD_set_eq _ _ _ _ (by omega)]
        simp only [true_iff]
        right
        rw [List.mem_append, List.mem_singleton]
        right
        rfl
      · rw [getD_set_ne _ _ _ _ _ (fun h => hiu h.symm)]
        rw [hiff i hi]
        constructor
        · rintro (h | h)
          · exact Or.inl h
          · exact Or.inr (List.mem_append.mpr (Or.inl h))
        · rintro (h | h)
          · exact Or.inl h
          · rcases List.mem_append.mp h with h2 | h2
            · exact Or.inr h2
            · rw [List.mem_singleton] at h2
              exact absurd (by omega : i = u) hiu

theorem nnTrasPasos_succ (ciudades : List Ciudad) (matriz : Matriz) (s : ℤ) (k : ℕ) :
    nnTrasPasos ciudades matriz s (k + 1)
      = nnTrasPasos ciudades matriz s k >>=
        fun st => pasoNN matriz ciudades.length st k := by
  unfold nnTrasPasos
  cases h : nnInicial ciudades s with
  | error e =>
    rfl
  | ok st0 =>
    show (List.range (k + 1)).foldlM (pasoNN matriz ciudades.length) st0
      = ((List.range k).foldlM (pasoNN matriz ciudades.length) st0) >>= _
    rw [List.range_succ, List.foldlM_append]
    congr 1
    funext st
    show List.foldlM _ st [k] = _
    cases hpb : pasoNN matriz ciudades.length st k with
    | error e => simp [List.foldlM, hpb]
    | ok r => simp [List.foldlM, hpb]

theorem nnTrasPasos_inv (ciudades : List Ciudad) (matriz : Matriz) (s : ℤ) (p : ℕ)
    (hm : esCuadrada matriz ciudades.length) (hp : p < ciudades.length)
    (hsp : s = (p : ℤ) ∨ s = (p : ℤ) - ciudades.length) :
    ∀ k, k ≤ ciudades.length - 1 →
      ∃ st, nnTrasPasos ciudades matriz s k = .ok st ∧
        InvNN ciudades.length p s k st := by
  intro k
  induction k with
  | zero =>
    intro _
    have hsetlen : ((List.replicate ciudades.length false) : List Bool).length
        = ciudades.length := List.length_replicate _ _
    have hset : pySet? (List.replicate ciudades.length false) s true
        = some ((List.replicate ciudades.length false).set p true) := by
      rcases hsp with h | h
      · subst h
        rw [pySet?_nonneg_lt _ _ _ (by omega) (by rw [hsetlen]; omega),
          Int.toNat_natCast]
      · subst h
        rw [pySet?_neg _ _ _ (by omega) (by rw [hsetlen]; omega)]
        congr 1
        rw [hsetlen]
        congr 1
        omega
    refine ⟨⟨(List.replicate ciudades.length false).set p true, [s], 0, [], s⟩, ?_, ?_, rfl,
      [], rfl, rfl, List.nodup_nil, by intro x hx; exact absurd hx (List.not_mem_nil x), ?_⟩
    · simp only [nnTrasPasos, nnInicial]
      rw [show pySetE (List.replicate ciudades.length false) s true
          = .ok ((List.replicate ciudades.length false).set p true) from by
        rw [pySetE, hset]]
      rfl
    · rw [List.length_set]
      exact hsetlen
    · intro i hi
      show ((List.replicate ciudades.length false).set p true).getD i false = true ↔ _
      by_cases hip : i = p
      · subst hip
        rw [getD_set_eq _ _ _ _ (by rw [hsetlen]; omega)]
        simp
      · rw [getD_set_ne _ _ _ _ _ (fun h => hip h.symm),
          getD_replicate_self _ _ _ _ hi]
        simp [hip]
  | succ k ih =>
    intro hk1
    have hn1 : 1 ≤ ciudades.length := by omega
    obtain ⟨st, hrun, hinv⟩ := ih (by omega)
    have hkn : k + 1 < ciudades.length := by omega
    obtain ⟨u, hu, huunv, hstep, hmin, hinv2⟩ :=
      pasoNN_spec matriz ciudades.length p s k st hm hp hsp hkn hinv
    refine ⟨_, ?_, hinv2⟩
    rw [nnTrasPasos_succ, hrun]
    show pasoNN matriz ciudades.length st k = _
    exact hstep

/-- Successful completion of `vecino_mas_cercano` for any seeded position
`p` (reached either directly or through negative-index wrap-around). -/
theorem vecino_exito (ciudades : List Ciudad) (matriz : Matriz) (s : ℤ) (p : ℕ)
    (hm : esCuadrada matriz ciudades.length) (hp : p < ciudades.length)
    (hsp : s = (p : ℤ) ∨ s = (p : ℤ) - ciudades.length) :
    ∃ r t, vecino_mas_cercano ciudades matriz s = .ok r ∧
      r.ciclo = s :: t ∧ t.length = ciudades.length - 1 ∧ t.Nodup ∧
      (∀ x ∈ t, 0 ≤ x ∧ x < ciudades.length ∧ x ≠ (p : ℤ)) := by
  obtain ⟨st, hrun, hinv⟩ := nnTrasPasos_inv ciudades matriz s p hm hp hsp
    (ciudades.length - 1) le_rfl
  obtain ⟨hlen, hcur_eq, t, hciclo, htlen, htnd, htrange, hiff⟩ := hinv
  have hs_range : -(ciudades.length : ℤ) ≤ s ∧ s < ciudades.length := by
    rcases hsp with h | h <;> subst h <;> constructor <;> omega
  have hcur : -(ciudades.length : ℤ) ≤ st.ciudad_actual
      ∧ st.ciudad_actual < ciudades.length := by
    rw [hcur_eq, hciclo, List.getLastD_cons]
    rcases getLastD_mem_or t s with h | h
    · rw [h]; exact hs_range
    · have := htrange _ h
      constructor <;> omega
  have hfa : -(matriz.length : ℤ) ≤ st.ciudad_actual
      ∧ st.ciudad_actual < matriz.length := by
    rw [hm.1]; exact hcur
  have hfila_len : (pyGetD matriz st.ciudad_actual []).length = ciudades.length :=
    hm.2 _ (pyGetD_mem hfa)
  have hreg : -((pyGetD matriz st.ciudad_actual []).length : ℤ) ≤ s
      ∧ s < (pyGetD matriz st.ciudad_actual []).length := by
    rw [hfila_len]; exact hs_range
  refine ⟨⟨st.ciclo,
    st.longitud_total + pyGetD (pyGetD matriz st.ciudad_actual []) s 0,
    st.historial ++ [⟨st.ciclo ++ [s], st.ciudad_actual, s,
      pyGetD (pyGetD matriz st.ciudad_actual []) s 0,
      st.longitud_total + pyGetD (pyGetD matriz st.ciudad_actual []) s 0,
      ciudades.length⟩]⟩, t, ?_, hciclo, htlen, htnd, htrange⟩
  unfold vecino_mas_cercano
  simp only [hrun, bind, Except.bind, pyGetE_ok matriz st.ciudad_actual [] hfa,
    pyGetE_ok (pyGetD matriz st.ciudad_actual []) s 0 hreg]

/-- Claim C3: for every city list with `n ≥ 1`, a square `n × n` matrix and
every `ciudad_inicio ∈ [0, n)`, the cycle returned by `vecino_mas_cercano`
is a permutation of `0..n-1` whose first element is `ciudad_inicio`. -/
theorem nn_ciclo_permutacion (ciudades : List Ciudad) (matriz : Matriz) (s : ℤ)
    (hm : esCuadrada matriz ciudades.length)
    (hs : 0 ≤ s ∧ s < (ciudades.length : ℤ)) :
    ∃ r, vecino_mas_cercano ciudades matriz s = .ok r ∧
      r.ciclo.head? = some s ∧
      r.ciclo.Perm (pyRange 0 (ciudades.length : ℤ)) := by
  have hp : s.toNat < ciudades.length := by omega
  obtain ⟨r, t, hok, hciclo, htlen, htnd, htrange⟩ :=
    vecino_exito ciudades matriz s s.toNat hm hp (Or.inl (by omega))
  refine ⟨r, hok, ?_, ?_⟩
  · rw [hciclo]; rfl
  · have hnodup : (s :: t).Nodup := by
      rw [List.nodup_cons]
      refine ⟨?_, htnd⟩
      intro hmem
      exact (htrange s hmem).2.2 (by omega)
    have hlenc : (s :: t).length = ciudades.length := by
      rw [List.length_cons, htlen]; omega
    have hsub : (s :: t) ⊆ pyRange 0 (ciudades.length : ℤ) := by
      intro x hx
      rw [mem_pyRange]
      rcases List.mem_cons.mp hx with h | h
      · subst h; omega
      · have := htrange x h; omega
    have hsper := List.Nodup.subperm hnodup hsub
    have hperm := List.Subperm.perm_of_length_le hsper
      (by rw [length_pyRange, hlenc]; omega)
    rw [hciclo]
    exact hperm

/-- Concrete instantiation of claim C3 on a 3-city instance. -/
theorem nn_ciclo_permutacion_testigo :
    ∃ r, vecino_mas_cercano [⟨"A", (0, 0)⟩, ⟨"B", (0, 1)⟩, ⟨"C", (1, 1)⟩]
        [[0, 1, 2], [1, 0, 1], [2, 1, 0]] 0 = .ok r ∧
      r.ciclo.head? = some 0 ∧
      r.ciclo.Perm (pyRange 0
        (([(⟨"A", (0, 0)⟩ : Ciudad), ⟨"B", (0, 1)⟩, ⟨"C", (1, 1)⟩].length : ℕ) : ℤ)) :=
  nn_ciclo_permutacion [⟨"A", (0, 0)⟩, ⟨"B", (0, 1)⟩, ⟨"C", (1, 1)⟩]
    [[0, 1, 2], [1, 0, 1], [2, 1, 0]] 0 (by decide) (by decide)

/-- Claim C10: for `n ≥ 1`, a square `n × n` matrix and a negative
`ciudad_inicio ∈ [-n, -1]`, `vecino_mas_cercano` raises no error and returns
an `n`-entry cycle whose first element is the negative start itself, and the
city `n + ciudad_inicio` never appears under its non-negative index. -/
theorem nn_inicio_negativo (ciudades : List Ciudad) (matriz : Matriz) (s : ℤ)
    (hm : esCuadrada matriz ciudades.length)
    (hneg : -(ciudades.length : ℤ) ≤ s ∧ s < 0) :
    ∃ r, vecino_mas_cercano ciudades matriz s = .ok r ∧
      r.ciclo.length = ciudades.length ∧ r.ciclo.head? = some s ∧
      ((ciudades.length : ℤ) + s) ∉ r.ciclo := by
  have hp : ((ciudades.length : ℤ) + s).toNat < ciudades.length := by omega
  obtain ⟨r, t, hok, hciclo, htlen, htnd, htrange⟩ :=
    vecino_exito ciudades matriz s ((ciudades.length : ℤ) + s).toNat hm hp
      (Or.inr (by omega))
  refine ⟨r, hok, ?_, ?_, ?_⟩
  · rw [hciclo, List.length_cons, htlen]; omega
  · rw [hciclo]; rfl
  · rw [hciclo]
    intro hmem
    rcases List.mem_cons.mp hmem with h | h
    · omega
    · exact (htrange _ h).2.2 (by omega)

/-- Concrete instantiation of claim C10 with start index `-2` on 3 cities. -/
theorem nn_inicio_negativo_testigo :
    ∃ r, vecino_mas_cercano [⟨"A", (0, 0)⟩, ⟨"B", (0, 1)⟩, ⟨"C", (1, 1)⟩]
        [[0, 1, 2], [1, 0, 1], [2, 1, 0]] (-2) = .ok r ∧
      r.ciclo.length = [(⟨"A", (0, 0)⟩ : Ciudad), ⟨"B", (0, 1)⟩, ⟨"C", (1, 1)⟩].length ∧
      r.ciclo.head? = some (-2) ∧
      ((([(⟨"A", (0, 0)⟩ : Ciudad), ⟨"B", (0, 1)⟩, ⟨"C", (1, 1)⟩].length : ℕ) : ℤ) + (-2))
        ∉ r.ciclo :=
  nn_inicio_negativo [⟨"A", (0, 0)⟩, ⟨"B", (0, 1)⟩, ⟨"C", (1, 1)⟩]
    [[0, 1, 2], [1, 0, 1], [2, 1, 0]] (-2) (by decide) (by decide)

/-- Claim C6 counterexample: `ciudad_inicio = -1` lies outside `[0, n)` yet
`vecino_mas_cercano` raises no error on a 1-city instance — the failure
condition of the claim is not "outside `[0, n)`". -/
theorem nn_indice_contraejemplo :
    (∃ r, vecino_mas_cercano [⟨"A", (0, 0)⟩] [[0]] (-1) = .ok r) ∧
      ¬(0 ≤ (-1 : ℤ) ∧ (-1 : ℤ) < (([(⟨"A", (0, 0)⟩ : Ciudad)].length : ℕ) : ℤ)) := by
  constructor
  · exact ⟨⟨[-1], 0 + 0, [⟨[-1, -1], -1, -1, 0, 0 + 0, 1⟩]⟩, rfl⟩
  · decide

/-- Claim C6 (amended): with a square `n × n` matrix, `vecino_mas_cercano`
fails — with an `IndexError` raised at entry while seeding the visited
list, before any tour construction — if and only if `ciudad_inicio` is
outside `[-n, n)`; inside `[-n, n)` it never fails. -/
theorem nn_indice_invalido (ciudades : List Ciudad) (matriz : Matriz) (s : ℤ)
    (hm : esCuadrada matriz ciudades.length) :
    (∃ r, vecino_mas_cercano ciudades matriz s = .ok r) ↔
      (-(ciudades.length : ℤ) ≤ s ∧ s < (ciudades.length : ℤ)) := by
  constructor
  · rintro ⟨r, hr⟩
    by_contra hout
    have hini : nnInicial ciudades s = .error "IndexError" := by
      simp only [nnInicial]
      rw [pySetE, show pySet? (List.replicate ciudades.length false) s true = none from by
        rw [pySet?_eq_none_iff, List.length_replicate]
        omega]
      rfl
    have hvec : vecino_mas_cercano ciudades matriz s = .error "IndexError" := by
      unfold vecino_mas_cercano nnTrasPasos
      rw [hini]
      rfl
    rw [hvec] at hr
    exact Except.noConfusion hr
  · intro hin
    by_cases hs : 0 ≤ s
    · obtain ⟨r, t, hok, _⟩ := vecino_exito ciudades matriz s s.toNat hm
        (by omega) (Or.inl (by omega))
      exact ⟨r, hok⟩
    · obtain ⟨r, t, hok, _⟩ := vecino_exito ciudades matriz s
        ((ciudades.length : ℤ) + s).toNat hm (by omega) (Or.inr (by omega))
      exact ⟨r, hok⟩

/-- Concrete instantiation of claim C6 (amended) on a 1-city instance. -/
theorem nn_indice_invalido_testigo :
    (∃ r, vecino_mas_cercano [⟨"A", (0, 0)⟩] [[0]] 1 = .ok r) ↔
      (-(([(⟨"A", (0, 0)⟩ : Ciudad)].length : ℕ) : ℤ) ≤ 1 ∧
        (1 : ℤ) < (([(⟨"A", (0, 0)⟩ : Ciudad)].length : ℕ) : ℤ)) :=
  nn_indice_invalido [⟨"A", (0, 0)⟩] [[0]] 1 (by decide)

/-- Claim C4: at every construction step of `vecino_mas_cercano`, the
appended city is an unvisited index whose distance from the current position
is minimal, and any unvisited index below it has strictly larger distance
(ascending scan with strict `<`, so the lowest index attaining the minimum
wins). -/
theorem nn_criterio_seleccion (ciudades : List Ciudad) (matriz : Matriz) (s : ℤ)
    (hm : esCuadrada matriz ciudades.length)
    (hs : 0 ≤ s ∧ s < (ciudades.length : ℤ)) (k : ℕ)
    (hk : k < ciudades.length - 1) :
    ∃ stK stK1, nnTrasPasos ciudades matriz s k = .ok stK ∧
      nnTrasPasos ciudades matriz s (k + 1) = .ok stK1 ∧
      ∃ u : ℕ, u < ciudades.length ∧
        stK1.ciclo = stK.ciclo ++ [(u : ℤ)] ∧
        stK1.ciudad_actual = (u : ℤ) ∧
        stK.visitadas.getD u false = false ∧
        ∀ v : ℕ, v < ciudades.length → stK.visitadas.getD v false = false →
          (entrada matriz stK.ciudad_actual (u : ℤ)
              ≤ entrada matriz stK.ciudad_actual (v : ℤ) ∧
            (v < u → entrada matriz stK.ciudad_actual (u : ℤ)
              < entrada matriz stK.ciudad_actual (v : ℤ))) := by
  have hp : s.toNat < ciudades.length := by omega
  obtain ⟨st, hrun, hinv⟩ := nnTrasPasos_inv ciudades matriz s s.toNat hm hp
    (Or.inl (by omega)) k (by omega)
  obtain ⟨u, hu, huunv, hstep, hmin, _⟩ := pasoNN_spec matriz ciudades.length
    s.toNat s k st hm hp (Or.inl (by omega)) (by omega) hinv
  refine ⟨st, ⟨st.visitadas.set u true, st.ciclo ++ [(u : ℤ)],
    st.longitud_total + entrada matriz st.ciudad_actual (u : ℤ),
    st.historial ++ [⟨st.ciclo ++ [(u : ℤ)], st.ciudad_actual, (u : ℤ),
      entrada matriz st.ciudad_actual (u : ℤ),
      st.longitud_total + entrada matriz st.ciudad_actual (u : ℤ), k + 1⟩],
    (u : ℤ)⟩, hrun, ?_, u, hu, rfl, rfl, huunv, hmin⟩
  rw [nnTrasPasos_succ, hrun]
  show pasoNN matriz ciudades.length st k = _
  exact hstep

/-- Concrete instantiation of claim C4 at the first step on 3 cities. -/
theorem nn_criterio_seleccion_testigo :
    ∃ stK stK1, nnTrasPasos [⟨"A", (0, 0)⟩, ⟨"B", (0, 1)⟩, ⟨"C", (1, 1)⟩]
        [[0, 1, 2], [1, 0, 1], [2, 1, 0]] 0 0 = .ok stK ∧
      nnTrasPasos [⟨"A", (0, 0)⟩, ⟨"B", (0, 1)⟩, ⟨"C", (1, 1)⟩]
        [[0, 1, 2], [1, 0, 1], [2, 1, 0]] 0 (0 + 1) = .ok stK1 ∧
      ∃ u : ℕ, u < [(⟨"A", (0, 0)⟩ : Ciudad), ⟨"B", (0, 1)⟩, ⟨"C", (1, 1)⟩].length ∧
        stK1.ciclo = stK.ciclo ++ [(u : ℤ)] ∧
        stK1.ciudad_actual = (u : ℤ) ∧
        stK.visitadas.getD u false = false ∧
        ∀ v : ℕ, v < [(⟨"A", (0, 0)⟩ : Ciudad), ⟨"B", (0, 1)⟩, ⟨"C", (1, 1)⟩].length →
          stK.visitadas.getD v false = false →
          (entrada [[0, 1, 2], [1, 0, 1], [2, 1, 0]] stK.ciudad_actual (u : ℤ)
              ≤ entrada [[0, 1, 2], [1, 0, 1], [2, 1, 0]] stK.ciudad_actual (v : ℤ) ∧
            (v < u → entrada [[0, 1, 2], [1, 0, 1], [2, 1, 0]] stK.ciudad_actual (u : ℤ)
              < entrada [[0, 1, 2], [1, 0, 1], [2, 1, 0]] stK.ciudad_actual (v : ℤ))) :=
  nn_criterio_seleccion [⟨"A", (0, 0)⟩, ⟨"B", (0, 1)⟩, ⟨"C", (1, 1)⟩]
    [[0, 1, 2], [1, 0, 1], [2, 1, 0]] 0 (by decide) (by decide) 0 (by decide)

/-! ### `comparador.py` -/

/-- The comparison dict produced by `comparar_metodos` (wall-clock derived
fields `tiempo_exhaustivo`, `tiempo_nn` and `speedup` omitted). -/
structure Comparacion where
  n_ciudades : ℕ
  longitud_optima : ℚ
  longitud_nn : ℚ
  diferencia_absoluta : ℚ
  gap_porcentaje : ℚ
  ciclos_evaluados : ℕ
  ciclo_optimo : Option (List ℤ)
  ciclo_nn : List ℤ
deriving DecidableEq, Repr

/-- `calcular_gap(longitud_nn, longitud_optima)`: optimality gap in percent;
Python raises `ZeroDivisionError` when `longitud_optima == 0`. -/
def calcular_gap (longitud_nn longitud_optima : ℚ) : Except String ℚ :=
  if longitud_optima = 0 then .error "ZeroDivisionError"
  else .ok (((longitud_nn - longitud_optima) / longitud_optima) * 100)

/-- `comparar_metodos(resultado_exhaustivo, resultado_nn, ciudades)`.
A `longitud_optima` of `float('inf')` (modelled `none`) never occurs in a
result actually returned by `busqueda_exhaustiva` (see
`busqueda_longitud_optima_isSome`); in Python it would propagate a NaN gap,
which has no rational counterpart, so the model maps it to an error
sentinel that no claim exercises. -/
def comparar_metodos (resultado_exhaustivo : ResultadoExhaustivo)
    (resultado_nn : ResultadoNN) (ciudades : List Ciudad) :
    Except String Comparacion :=
  match resultado_exhaustivo.longitud_optima with
  | none => .error "NaN"
  | some long_optima => do
    let long_nn := resultado_nn.longitud
    let gap ← calcular_gap long_nn long_optima
    .ok ⟨ciudades.length, long_optima, long_nn, long_nn - long_optima, gap,
      resultado_exhaustivo.ciclos_evaluados, resultado_exhaustivo.ciclo_optimo,
      resultado_nn.ciclo⟩

/-- Any result actually returned by `busqueda_exhaustiva` carries a finite
best length: the enumeration always evaluates at least one cycle and the
first one replaces the `float('inf')` sentinel. -/
theorem busqueda_longitud_optima_isSome (ciudades : List Ciudad) (matriz : Matriz)
    (r : ResultadoExhaustivo) (h : busqueda_exhaustiva ciudades matriz = .ok r) :
    r.longitud_optima.isSome := by
  have hkeep : ∀ (l : List (List ℤ)) (st : EstadoExh) (st2 : EstadoExh),
      st.mejor_longitud.isSome →
      l.foldlM (pasoExh matriz) st = .ok st2 → st2.mejor_longitud.isSome := by
    intro l
    induction l with
    | nil =>
      intro st st2 hsome hfold
      cases hfold
      exact hsome
    | cons q t ih =>
      intro st st2 hsome hfold
      rw [List.foldlM_cons] at hfold
      cases hq : pasoExh matriz st q with
      | error e => rw [hq] at hfold; exact Except.noConfusion hfold
      | ok st1 =>
        rw [hq] at hfold
        refine ih st1 st2 ?_ hfold
        simp only [pasoExh] at hq
        cases hc : calcular_longitud_ciclo (0 :: q) matriz with
        | error e => rw [hc] at hq; exact Except.noConfusion hq
        | ok L =>
          rw [hc] at hq
          have : st1 = actualizarExh st (0 :: q) L := by
            have := hq
            simp only [bind, Except.bind] at this
            exact (Except.ok.injEq _ _).mp this.symm
          subst this
          unfold actualizarExh
          cases hml : st.mejor_longitud with
          | none => simp [ltInf, hml]
          | some m =>
            by_cases hlt : L < m
            · simp [ltInf, hml, hlt]
            · simp [ltInf, hml, hlt]
  have hfirst : ∀ (q : List ℤ) (t : List (List ℤ)) (st2 : EstadoExh),
      (q :: t).foldlM (pasoExh matriz) (⟨none, none, 0, []⟩ : EstadoExh) = .ok st2 →
      st2.mejor_longitud.isSome := by
    intro q t st2 hfold
    rw [List.foldlM_cons] at hfold
    cases hq : pasoExh matriz ⟨none, none, 0, []⟩ q with
    | error e => rw [hq] at hfold; exact Except.noConfusion hfold
    | ok st1 =>
      rw [hq] at hfold
      refine hkeep t st1 st2 ?_ hfold
      simp only [pasoExh] at hq
      cases hc : calcular_longitud_ciclo (0 :: q) matriz with
      | error e => rw [hc] at hq; exact Except.noConfusion hq
      | ok L =>
        rw [hc] at hq
        have : st1 = actualizarExh ⟨none, none, 0, []⟩ (0 :: q) L := by
          have := hq
          simp only [bind, Except.bind] at this
          exact (Except.ok.injEq _ _).mp this.symm
        subst this
        simp [actualizarExh, ltInf]
  simp only [busqueda_exhaustiva] at h
  cases hP : permutationsLex (pyRange 1 (ciudades.length : ℤ)) with
  | nil => exact absurd hP (permutationsLex_ne_nil _)
  | cons q t =>
    rw [hP] at h
    cases hfold : (q :: t).foldlM (pasoExh matriz) (⟨none, none, 0, []⟩ : EstadoExh) with
    | error e => rw [hfold] at h; exact Except.noConfusion h
    | ok st2 =>
      rw [hfold] at h
      have hr : r = ⟨st2.mejor_ciclo, st2.mejor_longitud, st2.ciclos_evaluados,
          st2.historial⟩ := by
        have := h
        simp only [bind, Except.bind] at this
        exact ((Except.ok.injEq _ _).mp this).symm
      subst hr
      exact hfirst q t st2 hfold

/-- Claim C9: `comparar_metodos` computes `gap_porcentaje` exactly as
`((longitud_nn - longitud_optima) / longitud_optima) * 100` whenever the
exhaustive length is nonzero — in particular `10.0` and `12.0` yield exactly
`20.0` — and fails with a `ZeroDivisionError` when it equals `0`. -/
theorem gap_contrato (resultado_exhaustivo : ResultadoExhaustivo)
    (resultado_nn : ResultadoNN) (ciudades : List Ciudad) (lo : ℚ)
    (h : resultado_exhaustivo.longitud_optima = some lo) :
    (lo ≠ 0 → ∃ c, comparar_metodos resultado_exhaustivo resultado_nn ciudades = .ok c ∧
      c.gap_porcentaje = ((resultado_nn.longitud - lo) / lo) * 100 ∧
      (lo = 10 → resultado_nn.longitud = 12 → c.gap_porcentaje = 20)) ∧
    (lo = 0 → comparar_metodos resultado_exhaustivo resultado_nn ciudades
      = .error "ZeroDivisionError") := by
  constructor
  · intro hne
    refine ⟨⟨ciudades.length, lo, resultado_nn.longitud, resultado_nn.longitud - lo,
      ((resultado_nn.longitud - lo) / lo) * 100,
      resultado_exhaustivo.ciclos_evaluados, resultado_exhaustivo.ciclo_optimo,
      resultado_nn.ciclo⟩, ?_, rfl, ?_⟩
    · unfold comparar_metodos
      rw [h]
      simp only [calcular_gap, if_neg hne, bind, Except.bind]
    · intro h10 h12
      show ((resultado_nn.longitud - lo) / lo) * 100 = 20
      rw [h10, h12]
      norm_num
  · intro h0
    unfold comparar_metodos
    rw [h]
    simp only [calcular_gap, if_pos h0, bind, Except.bind]

/-- Concrete instantiation of claim C9: exhaustive length `10`,
nearest-neighbour length `12`. -/
theorem gap_contrato_testigo :
    ∃ c, comparar_metodos ⟨some [0], some 10, 1, []⟩ ⟨[0], 12, []⟩ [] = .ok c ∧
      c.gap_porcentaje = (((12 : ℚ) - 10) / 10) * 100 ∧
      ((10 : ℚ) = 10 → (12 : ℚ) = 12 → c.gap_porcentaje = 20) :=
  (gap_contrato ⟨some [0], some 10, 1, []⟩ ⟨[0], 12, []⟩ [] 10 rfl).1 (by norm_num)

/-! ### `distance_calculator.py`

Coordinates are rational (any Python float is); the distances live in `ℝ`
because of `sqrt`, `sin`, `cos`, `atan2`. -/

/-- `math.radians(x)`. -/
noncomputable def radians (x : ℚ) : ℝ := (x : ℝ) * Real.pi / 180

/-- `math.atan2(y, x)`: the standard piecewise extension of `arctan`. -/
noncomputable def atan2 (y x : ℝ) : ℝ :=
  if 0 < x then Real.arctan (y / x)
  else if x < 0 ∧ 0 ≤ y then Real.arctan (y / x) + Real.pi
  else if x < 0 ∧ y < 0 then Real.arctan (y / x) - Real.pi
  else if x = 0 ∧ 0 < y then Real.pi / 2
  else if x = 0 ∧ y < 0 then -(Real.pi / 2)
  else 0

/-- `distancia_euclidiana(coord1, coord2)`: plane distance in coordinate
space. -/
noncomputable def distancia_euclidiana (coord1 coord2 : ℚ × ℚ) : ℝ :=
  Real.sqrt (((coord1.1 : ℝ) - (coord2.1 : ℝ)) ^ 2
    + ((coord1.2 : ℝ) - (coord2.2 : ℝ)) ^ 2)

/-- `distancia_haversine(coord1, coord2)`: great-circle distance with Earth
radius `6371.0` km, inputs converted to radians first. -/
noncomputable def distancia_haversine (coord1 coord2 : ℚ × ℚ) : ℝ :=
  let R : ℝ := 6371
  let lat1 := radians coord1.1
  let lon1 := radians coord1.2
  let lat2 := radians coord2.1
  let lon2 := radians coord2.2
  let dlat := lat2 - lat1
  let dlon := lon2 - lon1
  let a := Real.sin (dlat / 2) ^ 2
    + Real.cos lat1 * Real.cos lat2 * Real.sin (dlon / 2) ^ 2
  let c := 2 * atan2 (Real.sqrt a) (Real.sqrt (1 - a))
  R * c

/-- `construir_matriz_distancias(ciudades, metodo)`: the `n × n` nested
loops with an explicit zero diagonal; an unknown `metodo` raises a
`ValueError`. -/
noncomputable def construir_matriz_distancias (ciudades : List Ciudad)
    (metodo : String) : Except String (List (List ℝ)) :=
  if metodo = "euclid" ∨ metodo = "haversine" then
    .ok ((List.range ciudades.length).map (fun i =>
      (List.range ciudades.length).map (fun j =>
        if i = j then 0
        else (if metodo = "euclid" then distancia_euclidiana
          else distancia_haversine)
          (ciudades.getD i default).coords (ciudades.getD j default).coords)))
  else .error "ValueError"

theorem distancia_euclidiana_symm (c1 c2 : ℚ × ℚ) :
    distancia_euclidiana c1 c2 = distancia_euclidiana c2 c1 := by
  unfold distancia_euclidiana
  congr 1
  ring

theorem distancia_haversine_symm (c1 c2 : ℚ × ℚ) :
    distancia_haversine c1 c2 = distancia_haversine c2 c1 := by
  simp only [distancia_haversine]
  have key : ∀ x1 y1 x2 y2 : ℝ,
      Real.sin ((x2 - x1) / 2) ^ 2
          + Real.cos x1 * Real.cos x2 * Real.sin ((y2 - y1) / 2) ^ 2
        = Real.sin ((x1 - x2) / 2) ^ 2
          + Real.cos x2 * Real.cos x1 * Real.sin ((y1 - y2) / 2) ^ 2 := by
    intro x1 y1 x2 y2
    rw [show (x2 - x1) / 2 = -((x1 - x2) / 2) from by ring, Real.sin_neg,
      show (y2 - y1) / 2 = -((y1 - y2) / 2) from by ring, Real.sin_neg]
    ring
  rw [key]

theorem getD_map_range {α : Type} [Inhabited α] (n : ℕ) (f : ℕ → α) (i : ℕ)
    (d : α) (hi : i < n) : ((List.range n).map f).getD i d = f i := by
  have h1 : i < ((List.range n).map f).length := by
    rw [List.length_map, List.length_range]; exact hi
  rw [List.getD_eq_getElem _ _ h1, List.getElem_map, List.getElem_range]

/-- Claim C8: for every city list and either supported metric identifier
(`euclid` or `haversine`), the matrix built by `construir_matriz_distancias`
is symmetric and has a zero diagonal. -/
theorem matriz_simetrica_diagonal_cero (ciudades : List Ciudad) (metodo : String)
    (hmet : metodo = "euclid" ∨ metodo = "haversine") :
    ∃ matriz, construir_matriz_distancias ciudades metodo = .ok matriz ∧
      (∀ i j : ℕ, i < ciudades.length → j < ciudades.length →
        (matriz.getD i []).getD j 0 = (matriz.getD j []).getD i 0) ∧
      (∀ i : ℕ, i < ciudades.length → (matriz.getD i []).getD i 0 = 0) := by
  refine ⟨_, by rw [construir_matriz_distancias, if_pos hmet], ?_, ?_⟩
  · intro i j hi hj
    rw [getD_map_range _ _ _ _ hi, getD_map_range _ _ _ _ hj,
      getD_map_range _ _ _ _ hj, getD_map_range _ _ _ _ hi]
    rcases hmet with hm | hm
    · subst hm
      rw [show (if ("euclid" : String) = "euclid" then distancia_euclidiana
        else distancia_haversine) = distancia_euclidiana from if_pos rfl]
      by_cases hij : i = j
      · subst hij; rfl
      · rw [if_neg hij, if_neg (fun h => hij h.symm)]
        exact distancia_euclidiana_symm _ _
    · subst hm
      rw [show (if ("haversine" : String) = "euclid" then distancia_euclidiana
        else distancia_haversine) = distancia_haversine from if_neg (by decide)]
      by_cases hij : i = j
      · subst hij; rfl
      · rw [if_neg hij, if_neg (fun h => hij h.symm)]
        exact distancia_haversine_symm _ _
  · intro i hi
    rw [getD_map_range _ _ _ _ hi, getD_map_range _ _ _ _ hi, if_pos rfl]

/-- Concrete instantiation of claim C8 under the plane-Euclidean metric. -/
theorem matriz_simetrica_diagonal_cero_testigo :
    ∃ matriz, construir_matriz_distancias [⟨"A", (0, 0)⟩, ⟨"B", (1, 2)⟩] "euclid"
        = .ok matriz ∧
      (∀ i j : ℕ, i < [(⟨"A", (0, 0)⟩ : Ciudad), ⟨"B", (1, 2)⟩].length →
        j < [(⟨"A", (0, 0)⟩ : Ciudad), ⟨"B", (1, 2)⟩].length →
        (matriz.getD i []).getD j 0 = (matriz.getD j []).getD i 0) ∧
      (∀ i : ℕ, i < [(⟨"A", (0, 0)⟩ : Ciudad), ⟨"B", (1, 2)⟩].length →
        (matriz.getD i []).getD i 0 = 0) :=
  matriz_simetrica_diagonal_cero [⟨"A", (0, 0)⟩, ⟨"B", (1, 2)⟩] "euclid" (Or.inl rfl)
